import Mathlib

/-!
# Verification of the BusTub buffer pool manager and clock replacer

Shallow embedding of `src/buffer/clock_replacer.cpp` and
`src/buffer/buffer_pool_manager.cpp`.

Modelling conventions:
* `frame_id_t` values are modelled as `Nat` (the manager only ever produces
  non-negative frame indices, so the replacer's `frame_id < 0` guard is
  unrepresentable and vacuous);
* `page_id_t` values are modelled as `Int` (the sentinel `INVALID_PAGE_ID`
  is `-1`);
* the C++ `short idx` local in `ClockReplacer::Victim` is modelled as `Nat`
  (faithful for pool sizes up to `SHRT_MAX`, and the repository never
  constructs larger pools in a way that matters to the claims);
* a page's byte buffer is abstracted to a single `Nat` token `data`
  (the code never inspects page bytes, it only moves them);
* the external `DiskManager` collaborator keeps an allocation counter
  (`AllocatePage` returns `next_page_id_++` as in BusTub), a durable store,
  and a log of every `WritePage` invocation;
* uninitialized C++ locals (`r_target` in `FetchPageImpl`, `candi_id` in
  `NewPageImpl`) are modelled by threading an explicit indeterminate value
  `junk`, which the embedding uses exactly where the C++ reads the
  never-written variable.
-/

namespace Bustub

/-- The replacer state: `clk_ptr`, `buffer_size`, and the two parallel bit
vectors `reflag` (second-chance bit) and `inflag` (trackability), exactly as
in `ClockReplacer`'s fields. -/
structure ClockReplacer where
  clk_ptr : Nat
  buffer_size : Nat
  reflag : List Bool
  inflag : List Bool
deriving DecidableEq

/-- `ClockReplacer::ClockReplacer(num_pages)`: hand at 0, all frames neither
referenced nor in the replacer. -/
def ClockReplacer.create (num_pages : Nat) : ClockReplacer :=
  { clk_ptr := 0
    buffer_size := num_pages
    reflag := List.replicate num_pages false
    inflag := List.replicate num_pages false }

/-- The `for (size_t i = 0; i < buffer_size; i++)` loop of
`ClockReplacer::Victim` (lines 36-55).  `i` is the loop counter, `candi` the
`short candi` local (`none` models `-1`), and the extra fuel argument counts
the remaining iterations (`buffer_size - i` at entry).  Returns the value of
`ret`/`*frame_id` as an `Option`, the final `candi`, and the updated state. -/
def ClockReplacer.victimScan :
    ClockReplacer → Nat → Option Nat → Nat → Option Nat × Option Nat × ClockReplacer
  | r, _, candi, 0 => (none, candi, r)
  | r, i, candi, fuel + 1 =>
    let idx := (r.clk_ptr + i) % r.buffer_size
    if r.inflag.getD idx false && !(r.reflag.getD idx false) then
      -- first frame that is in the replacer with its ref flag false
      (some idx, candi,
        { r with
          clk_ptr := (idx + 1) % r.buffer_size
          inflag := r.inflag.set idx false })
    else if r.inflag.getD idx false && r.reflag.getD idx false then
      -- in the replacer but referenced: clear the flag, remember first candidate
      ClockReplacer.victimScan
        { r with reflag := r.reflag.set idx false }
        (i + 1) (some (candi.getD idx)) fuel
    else
      ClockReplacer.victimScan r (i + 1) candi fuel

/-- `ClockReplacer::Victim` (lines 32-73): run the scan; on no immediate
victim fall back to `candi` if one was recorded, else report failure (the
C++ writes `frame_id = nullptr`, i.e. the caller's variable is never
written, modelled by returning `none`). -/
def ClockReplacer.Victim (r : ClockReplacer) : Option Nat × ClockReplacer :=
  match ClockReplacer.victimScan r 0 none r.buffer_size with
  | (some idx, _, r1) => (some idx, r1)
  | (none, none, r1) => (none, r1)
  | (none, some candi, r1) =>
    (some candi,
      { r1 with
        clk_ptr := (candi + 1) % r1.buffer_size
        inflag := r1.inflag.set candi false })

/-- `ClockReplacer::Pin` (lines 79-86). -/
def ClockReplacer.Pin (r : ClockReplacer) (frame_id : Nat) : ClockReplacer :=
  if r.buffer_size ≤ frame_id then r
  else { r with inflag := r.inflag.set frame_id false }

/-- `ClockReplacer::Unpin` (lines 92-100). -/
def ClockReplacer.Unpin (r : ClockReplacer) (frame_id : Nat) : ClockReplacer :=
  if r.buffer_size ≤ frame_id then r
  else { r with inflag := r.inflag.set frame_id true, reflag := r.reflag.set frame_id true }

/-- `ClockReplacer::Size` (lines 103-112). -/
def ClockReplacer.Size (r : ClockReplacer) : Nat :=
  r.inflag.count true

/-- One `Page` object: identifier, pin count, dirty bit, abstracted bytes. -/
structure Page where
  page_id : Int
  pin_count : Int
  is_dirty : Bool
  data : Nat
deriving DecidableEq

/-- A default-constructed `Page` (`page_id_ = INVALID_PAGE_ID`, zero pin
count, clean, zeroed buffer). -/
def pageDefault : Page :=
  { page_id := -1, pin_count := 0, is_dirty := false, data := 0 }

/-- Association-list lookup, modelling `unordered_map::find` /
`unordered_map::operator[]` reads (also reused for the disk store). -/
def ptFind : List (Int × Nat) → Int → Option Nat
  | [], _ => none
  | (k, v) :: rest, pid => if k = pid then some v else ptFind rest pid

/-- Association-list erase, modelling `unordered_map::erase`. -/
def ptErase : List (Int × Nat) → Int → List (Int × Nat)
  | [], _ => []
  | (k, v) :: rest, pid =>
    if k = pid then ptErase rest pid else (k, v) :: ptErase rest pid

/-- Association-list overwrite-insert, modelling
`unordered_map::operator[] = `. -/
def ptInsert (pt : List (Int × Nat)) (pid : Int) (f : Nat) : List (Int × Nat) :=
  ptErase pt pid ++ [(pid, f)]

/-- The external storage collaborator: `next_page` is BusTub's
`next_page_id_` counter behind `AllocatePage`, `store` holds durable page
contents, and `writes` logs every `WritePage(page_id, data)` invocation. -/
structure DiskManager where
  next_page : Int
  store : List (Int × Nat)
  writes : List (Int × Nat)
deriving DecidableEq

/-- `DiskManager::AllocatePage`: returns `next_page_id_++`. -/
def DiskManager.AllocatePage (d : DiskManager) : Int × DiskManager :=
  (d.next_page, { d with next_page := d.next_page + 1 })

/-- `DiskManager::WritePage`. -/
def DiskManager.WritePage (d : DiskManager) (pid : Int) (dat : Nat) : DiskManager :=
  { d with store := (pid, dat) :: d.store, writes := d.writes ++ [(pid, dat)] }

/-- `DiskManager::ReadPage` (unallocated pages read as zeroed bytes). -/
def DiskManager.ReadPage (d : DiskManager) (pid : Int) : Nat :=
  (ptFind d.store pid).getD 0

/-- The manager state: `pages_` array, replacer, free list, page table and
the storage collaborator.  The log manager is inert and omitted. -/
structure BufferPoolManager where
  pool_size : Nat
  pages : List Page
  replacer : ClockReplacer
  free_list : List Nat
  page_table : List (Int × Nat)
  disk : DiskManager
deriving DecidableEq

/-- `pages_[f]` read access. -/
def getPage (m : BufferPoolManager) (f : Nat) : Page :=
  m.pages.getD f pageDefault

/-- `BufferPoolManager::BufferPoolManager(pool_size, disk_manager, ...)`:
default-constructed pages, fresh replacer, every frame on the free list. -/
def initBPM (pool_size : Nat) (disk : DiskManager) : BufferPoolManager :=
  { pool_size := pool_size
    pages := List.replicate pool_size pageDefault
    replacer := ClockReplacer.create pool_size
    free_list := List.range pool_size
    page_table := []
    disk := disk }

/-- The frame index with which `pages_` is indexed at
`buffer_pool_manager.cpp:81` and `:192` (`pages_[r_target].GetPageId()` /
`pages_[candi_id].GetPageId()`): the value `Victim` wrote on success, and
the indeterminate initial value `junk` of the uninitialized local on
failure (on failure the C++ `Victim` assigns `frame_id = nullptr` to its
*local* pointer parameter and never writes through it). -/
def victimReadIndex (m : BufferPoolManager) (junk : Nat) : Nat :=
  match (m.replacer.Victim).1 with
  | some f => f
  | none => junk

/-- `BufferPoolManager::FlushPageImpl` (lines 139-161). -/
def FlushPageImpl (m : BufferPoolManager) (page_id : Int) : Bool × BufferPoolManager :=
  match ptFind m.page_table page_id with
  | none => (false, m)
  | some frame =>
    if !(getPage m frame).is_dirty then (true, m)
    else
      (true,
        { m with
          disk := m.disk.WritePage page_id (getPage m frame).data
          pages := m.pages.set frame { getPage m frame with is_dirty := false } })

/-- Lines 97-107 of `FetchPageImpl`: pin the victim frame, bump its pin
count, swap the page-table entries and read the requested page in.  `m` is
the state after the optional dirty write-back. -/
def evictBind (m : BufferPoolManager) (r_target : Nat) (evict_page page_id : Int) :
    Option Nat × BufferPoolManager :=
  (some r_target,
    { m with
      replacer := m.replacer.Pin r_target
      pages := m.pages.set r_target
        { getPage m r_target with
          pin_count := (getPage m r_target).pin_count + 1
          page_id := page_id
          is_dirty := false
          data := m.disk.ReadPage page_id }
      page_table := ptInsert (ptErase m.page_table evict_page) page_id r_target })

/-- `BufferPoolManager::FetchPageImpl` (lines 39-108).  `junk` is the
indeterminate initial value of the uninitialized local `r_target`. -/
def FetchPageImpl (m : BufferPoolManager) (page_id : Int) (junk : Nat) :
    Option Nat × BufferPoolManager :=
  match ptFind m.page_table page_id with
  | some p_requested =>
    -- S1.1: page-table hit, pin and return
    (some p_requested,
      { m with
        replacer := m.replacer.Pin p_requested
        pages := m.pages.set p_requested
          { getPage m p_requested with
            pin_count := (getPage m p_requested).pin_count + 1 } })
  | none =>
    match m.free_list with
    | r_target :: rest =>
      -- S1.2: take the replacement frame from the free list
      (some r_target,
        { m with
          free_list := rest
          replacer := m.replacer.Pin r_target
          pages := m.pages.set r_target
            { getPage m r_target with
              pin_count := (getPage m r_target).pin_count + 1
              page_id := page_id
              is_dirty := false
              data := m.disk.ReadPage page_id }
          page_table := ptInsert m.page_table page_id r_target })
    | [] =>
      -- S1.2 ELSE: ask the replacer; the page-id read at line 81 happens
      -- before the success flag is checked and uses `junk` on failure
      let v := (m.replacer.Victim).1
      let m1 : BufferPoolManager := { m with replacer := (m.replacer.Victim).2 }
      let r_target := victimReadIndex m junk
      let evict_page := (getPage m1 r_target).page_id
      match v with
      | none => (none, m1)
      | some _ =>
        if (getPage m1 r_target).is_dirty then
          let fres := FlushPageImpl m1 evict_page
          if fres.1 then evictBind fres.2 r_target evict_page page_id
          else (none, fres.2)
        else
          evictBind m1 r_target evict_page page_id

/-- `BufferPoolManager::UnpinPageImpl` (lines 110-137). -/
def UnpinPageImpl (m : BufferPoolManager) (page_id : Int) (is_dirty : Bool) :
    Bool × BufferPoolManager :=
  match ptFind m.page_table page_id with
  | none => (true, m)
  | some frame =>
    if (getPage m frame).pin_count ≤ 0 then (false, m)
    else
      let m1 : BufferPoolManager :=
        { m with
          pages := m.pages.set frame
            { getPage m frame with
              pin_count := (getPage m frame).pin_count - 1
              is_dirty := (getPage m frame).is_dirty || is_dirty } }
      if (getPage m1 frame).pin_count = 0 then
        (true, { m1 with replacer := m1.replacer.Unpin frame })
      else (true, m1)

/-- Lines 208-221 of `NewPageImpl`: erase the victim's entry, allocate a
fresh identifier, zero and rebind the frame.  `m` is the state after the
optional dirty write-back. -/
def newBind (m : BufferPoolManager) (candi_id : Nat) (victim_id : Int) :
    Option (Int × Nat) × BufferPoolManager :=
  let pid := (m.disk.AllocatePage).1
  (some (pid, candi_id),
    { m with
      disk := (m.disk.AllocatePage).2
      pages := m.pages.set candi_id
        { page_id := pid, pin_count := 1, is_dirty := false, data := 0 }
      replacer := m.replacer.Pin candi_id
      page_table := ptInsert (ptErase m.page_table victim_id) pid candi_id })

/-- `BufferPoolManager::NewPageImpl` (lines 163-222).  The returned pair, on
success, is the value written to the `page_id` out-parameter together with
the frame.  `junk` is the indeterminate initial value of the uninitialized
local `candi_id`. -/
def NewPageImpl (m : BufferPoolManager) (junk : Nat) :
    Option (Int × Nat) × BufferPoolManager :=
  match m.free_list with
  | free_id :: rest =>
    -- S2 IF: free frame available
    let pid := (m.disk.AllocatePage).1
    (some (pid, free_id),
      { m with
        free_list := rest
        disk := (m.disk.AllocatePage).2
        pages := m.pages.set free_id
          { page_id := pid, pin_count := 1, is_dirty := false, data := 0 }
        replacer := m.replacer.Pin free_id
        page_table := ptInsert m.page_table pid free_id })
  | [] =>
    -- S2 CASE: take a victim from the replacer; the page-id read at line
    -- 192 happens before the success flag is checked
    let v := (m.replacer.Victim).1
    let m1 : BufferPoolManager := { m with replacer := (m.replacer.Victim).2 }
    let candi_id := victimReadIndex m junk
    let victim_id := (getPage m1 candi_id).page_id
    match v with
    | none => (none, m1)
    | some _ =>
      if (getPage m1 candi_id).is_dirty then
        let fres := FlushPageImpl m1 victim_id
        if fres.1 then newBind fres.2 candi_id victim_id
        else (none, fres.2)
      else
        newBind m1 candi_id victim_id

/-- `BufferPoolManager::DeletePageImpl` (lines 224-231): the body is the
stub `return false;` — the numbered step comments above it are not
implemented. -/
def DeletePageImpl (m : BufferPoolManager) (page_id : Int) :
    Bool × BufferPoolManager :=
  (false, m)

/-- `BufferPoolManager::FlushAllPagesImpl` (lines 233-240). -/
def FlushAllPagesImpl (m : BufferPoolManager) : BufferPoolManager :=
  (List.range m.pool_size).foldl
    (fun acc i =>
      if (getPage acc i).is_dirty then (FlushPageImpl acc (getPage acc i).page_id).2
      else acc)
    m

/-- One public manager operation (the `junk` arguments carry the
indeterminate values of the uninitialized C++ locals, see above). -/
inductive Op where
  | fetch (page_id : Int) (junk : Nat)
  | unpin (page_id : Int) (is_dirty : Bool)
  | flush (page_id : Int)
  | newp (junk : Nat)
  | deletePage (page_id : Int)
  | flushAll
deriving DecidableEq

/-- Apply one operation, keeping only the state. -/
def applyOp (m : BufferPoolManager) : Op → BufferPoolManager
  | Op.fetch pid junk => (FetchPageImpl m pid junk).2
  | Op.unpin pid d => (UnpinPageImpl m pid d).2
  | Op.flush pid => (FlushPageImpl m pid).2
  | Op.newp junk => (NewPageImpl m junk).2
  | Op.deletePage pid => (DeletePageImpl m pid).2
  | Op.flushAll => FlushAllPagesImpl m

/-- Run a sequence of manager operations. -/
def runOps (m : BufferPoolManager) (ops : List Op) : BufferPoolManager :=
  ops.foldl applyOp m

/-- The concrete empty disk used in concrete scenarios. -/
def dInit : DiskManager := { next_page := 0, store := [], writes := [] }

/-- The replacer of the spec's replacer-only test: frames `{0,1,2}` all
unpinned into a fresh replacer of size 3. -/
def victimDemoReplacer : ClockReplacer :=
  (((ClockReplacer.create 3).Unpin 0).Unpin 1).Unpin 2

/-- A pool of size 1 whose only frame is pinned by a successful `NewPage`. -/
def pool1Full : BufferPoolManager := (NewPageImpl (initBPM 1 dInit) 0).2

/-- A pool of size 2 driven by `FetchPage(0)`, `UnpinPage(0,false)`,
`NewPage()`: the `NewPage` call re-mints identifier 0 (the allocation
counter was never advanced past it) and its page-table insert overwrites
the entry binding page 0 to frame 0, leaving frame 0 trackable in the
replacer but bound to no page-table entry. -/
def trackLeakState : BufferPoolManager :=
  runOps (initBPM 2 dInit) [Op.fetch 0 0, Op.unpin 0 false, Op.newp 0]

/-- The consistency invariant of a well-formed pool state: array lengths
agree with `pool_size`; every page-table entry points at an in-range frame
whose `page_id` field matches, with an identifier below the allocation
counter; page-table values are distinct; pin counts are non-negative; the
free list is duplicate-free and disjoint from residency; and a frame is
trackable in the replacer exactly when it is resident with pin count 0. -/
structure Inv (m : BufferPoolManager) : Prop where
  hpages : m.pages.length = m.pool_size
  hbuf : m.replacer.buffer_size = m.pool_size
  hin : m.replacer.inflag.length = m.pool_size
  href : m.replacer.reflag.length = m.pool_size
  hpt : ∀ pid f, ptFind m.page_table pid = some f →
    f < m.pool_size ∧ (getPage m f).page_id = pid ∧ pid < m.disk.next_page
  hinj : ∀ p₁ p₂ f, ptFind m.page_table p₁ = some f →
    ptFind m.page_table p₂ = some f → p₁ = p₂
  hpin : ∀ f, 0 ≤ (getPage m f).pin_count
  hnd : m.free_list.Nodup
  hfree : ∀ f ∈ m.free_list, f < m.pool_size ∧ (getPage m f).pin_count = 0 ∧
    ∀ pid, ptFind m.page_table pid ≠ some f
  htrack : ∀ f, m.replacer.inflag.getD f false = true ↔
    ((∃ pid, ptFind m.page_table pid = some f) ∧ (getPage m f).pin_count = 0)

/-- States reachable from a fresh pool by manager operations whose
`FetchPage` calls only target identifiers the storage collaborator could
already have allocated (below its next-identifier counter). -/
inductive ReachableA (N : Nat) (d : DiskManager) : BufferPoolManager → Prop where
  | init : ReachableA N d (initBPM N d)
  | fetch (m : BufferPoolManager) (pid : Int) (junk : Nat) :
      ReachableA N d m → pid < m.disk.next_page →
      ReachableA N d (FetchPageImpl m pid junk).2
  | unpin (m : BufferPoolManager) (pid : Int) (dty : Bool) :
      ReachableA N d m → ReachableA N d (UnpinPageImpl m pid dty).2
  | flush (m : BufferPoolManager) (pid : Int) :
      ReachableA N d m → ReachableA N d (FlushPageImpl m pid).2
  | newp (m : BufferPoolManager) (junk : Nat) :
      ReachableA N d m → ReachableA N d (NewPageImpl m junk).2
  | deletePage (m : BufferPoolManager) (pid : Int) :
      ReachableA N d m → ReachableA N d (DeletePageImpl m pid).2
  | flushAll (m : BufferPoolManager) :
      ReachableA N d m → ReachableA N d (FlushAllPagesImpl m)

/-- A sequence of `FetchPage`/`NewPage` calls (no unpins), each targeting a
page that is not currently resident and each succeeding. -/
def DistinctMissOps : BufferPoolManager → List Op → Prop
  | _, [] => True
  | m, Op.fetch pid junk :: rest =>
    ptFind m.page_table pid = none ∧ (FetchPageImpl m pid junk).1 ≠ none ∧
    DistinctMissOps (FetchPageImpl m pid junk).2 rest
  | m, Op.newp junk :: rest =>
    (NewPageImpl m junk).1 ≠ none ∧ DistinctMissOps (NewPageImpl m junk).2 rest
  | _, _ :: _ => False

/-! ## Helper lemmas: lists and association lists -/

theorem getD_set_self {α : Type} (l : List α) (i : Nat) (a d : α)
    (h : i < l.length) : (l.set i a).getD i d = a := by
  induction l generalizing i with
  | nil => simp at h
  | cons hd tl ih =>
    cases i with
    | zero => rfl
    | succ n => simpa using ih n (by simpa using h)

theorem getD_set_ne {α : Type} (l : List α) {i j : Nat} (a d : α)
    (h : i ≠ j) : (l.set i a).getD j d = l.getD j d := by
  induction l generalizing i j with
  | nil => rfl
  | cons hd tl ih =>
    cases i with
    | zero =>
      cases j with
      | zero => exact absurd rfl h
      | succ n => rfl
    | succ n =>
      cases j with
      | zero => rfl
      | succ k => simpa using ih (fun hnk => h (by simpa using hnk))

theorem getD_replicate {α : Type} (n i : Nat) (a : α) :
    (List.replicate n a).getD i a = a := by
  induction n generalizing i with
  | zero => rfl
  | succ k ih =>
    cases i with
    | zero => rfl
    | succ j => simpa using ih j

theorem ptFind_erase (pt : List (Int × Nat)) (pid q : Int) :
    ptFind (ptErase pt pid) q = if q = pid then none else ptFind pt q := by
  induction pt with
  | nil => simp [ptErase, ptFind]
  | cons e rest ih =>
    obtain ⟨k, v⟩ := e
    by_cases hk : k = pid
    · subst hk
      by_cases hq : q = k
      · subst hq
        simp [ptErase, ptFind, ih]
      · have hkq : ¬ (k = q) := fun h => hq h.symm
        simp [ptErase, ptFind, ih, hq, hkq]
    · by_cases hkq : k = q
      · subst hkq
        have hq : ¬ (k = pid) := hk
        simp [ptErase, ptFind, hk, hq]
      · simp [ptErase, ptFind, hk, hkq, ih]

theorem ptFind_insert (pt : List (Int × Nat)) (pid : Int) (f : Nat) (q : Int) :
    ptFind (ptInsert pt pid f) q = if q = pid then some f else ptFind pt q := by
  have happ : ∀ (l : List (Int × Nat)),
      ptFind (l ++ [(pid, f)]) q =
        match ptFind l q with
        | some v => some v
        | none => ptFind [(pid, f)] q := by
    intro l
    induction l with
    | nil => rfl
    | cons e rest ih =>
      obtain ⟨k, v⟩ := e
      by_cases hk : k = q
      · simp [ptFind, hk]
      · simp [ptFind, hk, ih]
  unfold ptInsert
  rw [happ, ptFind_erase]
  by_cases hq : q = pid
  · simp [hq, ptFind]
  · have hpq : ¬ (pid = q) := fun h => hq h.symm
    cases hfind : ptFind pt q <;> simp [hq, hfind, hpq, ptFind]

/-! ## Helper lemmas: the replacer's victim scan -/

/-- Behaviour of one full run of the `Victim` scan loop.  The hypothesis
says any recorded candidate is (still) trackable; the conclusions describe
lengths, the returned victim, and the no-victim case. -/
theorem victimScan_spec (fuel : Nat) :
    ∀ (r : ClockReplacer) (i : Nat) (candi : Option Nat),
    (∀ c, candi = some c → r.inflag.getD c false = true) →
    ∀ (ret candi' : Option Nat) (r' : ClockReplacer),
    ClockReplacer.victimScan r i candi fuel = (ret, candi', r') →
    r'.buffer_size = r.buffer_size ∧
    r'.inflag.length = r.inflag.length ∧
    r'.reflag.length = r.reflag.length ∧
    (∀ f, ret = some f →
      r.inflag.getD f false = true ∧ r'.inflag = r.inflag.set f false) ∧
    (ret = none →
      r'.inflag = r.inflag ∧
      (∀ c, candi' = some c → r.inflag.getD c false = true) ∧
      (candi' = none → candi = none ∧ r' = r ∧
        ∀ j, j < fuel →
          r.inflag.getD ((r.clk_ptr + i + j) % r.buffer_size) false = false)) := by
  induction fuel with
  | zero =>
    intro r i candi hc ret candi' r' h
    simp only [ClockReplacer.victimScan] at h
    rw [Prod.mk.injEq, Prod.mk.injEq] at h
    obtain ⟨hret, hcandi, hr⟩ := h
    subst hret; subst hcandi; subst hr
    refine ⟨rfl, rfl, rfl, ?_, ?_⟩
    · intro f hf; simp at hf
    · intro _
      exact ⟨rfl, hc, fun hcn => ⟨hcn, rfl, fun j hj => by omega⟩⟩
  | succ fuel ih =>
    intro r i candi hc ret candi' r' h
    simp only [ClockReplacer.victimScan] at h
    by_cases h1 :
        (r.inflag.getD ((r.clk_ptr + i) % r.buffer_size) false &&
          !(r.reflag.getD ((r.clk_ptr + i) % r.buffer_size) false)) = true
    · rw [if_pos h1] at h
      rw [Prod.mk.injEq, Prod.mk.injEq] at h
      obtain ⟨hret, hcandi, hr⟩ := h
      subst hret; subst hcandi; subst hr
      obtain ⟨hin, _⟩ := Bool.and_eq_true .. |>.mp h1
      refine ⟨rfl, by simp, rfl, ?_, ?_⟩
      · intro f hf
        obtain rfl := Option.some.injEq .. ▸ hf
        exact ⟨hin, rfl⟩
      · intro hn; simp at hn
    · rw [if_neg h1] at h
      by_cases h2 :
          (r.inflag.getD ((r.clk_ptr + i) % r.buffer_size) false &&
            r.reflag.getD ((r.clk_ptr + i) % r.buffer_size) false) = true
      · rw [if_pos h2] at h
        obtain ⟨hin2, _⟩ := Bool.and_eq_true .. |>.mp h2
        have hc2 : ∀ c, some (candi.getD ((r.clk_ptr + i) % r.buffer_size)) = some c →
            ({ r with reflag := r.reflag.set ((r.clk_ptr + i) % r.buffer_size) false
               : ClockReplacer }).inflag.getD c false = true := by
          intro c hcc
          obtain rfl := Option.some.injEq .. ▸ hcc
          cases hcand : candi with
          | none => simpa [hcand] using hin2
          | some c0 => simpa [hcand] using hc c0 hcand
        obtain ⟨hbuf, hlin, hlref, hsome, hnone⟩ := ih _ _ _ hc2 _ _ _ h
        refine ⟨hbuf, hlin, by simpa using hlref, ?_, ?_⟩
        · intro f hf
          obtain ⟨hin', hset⟩ := hsome f hf
          exact ⟨hin', hset⟩
        · intro hn
          obtain ⟨hinfl, hcands, hcn⟩ := hnone hn
          refine ⟨hinfl, hcands, ?_⟩
          intro hce
          obtain ⟨hbad, _, _⟩ := hcn hce
          simp at hbad
      · rw [if_neg h2] at h
        obtain ⟨hbuf, hlin, hlref, hsome, hnone⟩ := ih _ _ _ hc _ _ _ h
        refine ⟨hbuf, hlin, hlref, hsome, ?_⟩
        intro hn
        obtain ⟨hinfl, hcands, hcn⟩ := hnone hn
        refine ⟨hinfl, hcands, ?_⟩
        intro hce
        obtain ⟨hcnil, hrr, hcov⟩ := hcn hce
        refine ⟨hcnil, hrr, ?_⟩
        intro j hj
        cases j with
        | zero =>
          have harith0 : r.clk_ptr + i + 0 = r.clk_ptr + i := by omega
          rw [harith0]
          cases hin : r.inflag.getD ((r.clk_ptr + i) % r.buffer_size) false with
          | false => rfl
          | true =>
            cases href : r.reflag.getD ((r.clk_ptr + i) % r.buffer_size) false with
            | false => exact absurd (by rw [hin, href]; rfl) h1
            | true => exact absurd (by rw [hin, href]; rfl) h2
        | succ j' =>
          have harith : r.clk_ptr + i + (j' + 1) = r.clk_ptr + (i + 1) + j' := by omega
          rw [harith]
          exact hcov j' (by omega)

/-- A successful `Victim` call returns a frame that was trackable and
removes exactly that frame from the replacer (the reference bits and the
clock hand change, the other trackability bits do not). -/
theorem Victim_some_spec (r : ClockReplacer) (f : Nat) (r' : ClockReplacer)
    (h : r.Victim = (some f, r')) :
    r.inflag.getD f false = true ∧
    r'.inflag = r.inflag.set f false ∧
    r'.buffer_size = r.buffer_size ∧
    r'.inflag.length = r.inflag.length ∧
    r'.reflag.length = r.reflag.length := by
  unfold ClockReplacer.Victim at h
  rcases hs : ClockReplacer.victimScan r 0 none r.buffer_size with ⟨ret, candi', r1⟩
  obtain ⟨hbuf, hlin, hlref, hsome, hnone⟩ :=
    victimScan_spec r.buffer_size r 0 none (by intro c hc; simp at hc) ret candi' r1 hs
  rw [hs] at h
  cases ret with
  | some idx =>
    rw [Prod.mk.injEq] at h
    obtain ⟨hf, hr⟩ := h
    cases hf
    subst hr
    obtain ⟨hin, hset⟩ := hsome f rfl
    exact ⟨hin, hset, hbuf, hlin, hlref⟩
  | none =>
    obtain ⟨hinfl, hcands, _⟩ := hnone rfl
    cases candi' with
    | none => simp at h
    | some c =>
      rw [Prod.mk.injEq] at h
      obtain ⟨hf, hr⟩ := h
      cases hf
      subst hr
      refine ⟨hcands f rfl, ?_, hbuf, ?_, hlref⟩
      · simp [hinfl]
      · simp [hinfl]

/-- A failed `Victim` call leaves the replacer unchanged, and every index
visited during the lap was untrackable. -/
theorem Victim_none_spec (r r' : ClockReplacer) (h : r.Victim = (none, r')) :
    r' = r ∧ ∀ j, j < r.buffer_size →
      r.inflag.getD ((r.clk_ptr + j) % r.buffer_size) false = false := by
  unfold ClockReplacer.Victim at h
  rcases hs : ClockReplacer.victimScan r 0 none r.buffer_size with ⟨ret, candi', r1⟩
  obtain ⟨hbuf, hlin, hlref, hsome, hnone⟩ :=
    victimScan_spec r.buffer_size r 0 none (by intro c hc; simp at hc) ret candi' r1 hs
  rw [hs] at h
  cases ret with
  | some idx => simp at h
  | none =>
    cases candi' with
    | some c => simp at h
    | none =>
      rw [Prod.mk.injEq] at h
      obtain ⟨_, hr⟩ := h
      subst hr
      obtain ⟨_, _, hcn⟩ := hnone rfl
      obtain ⟨_, hrr, hcov⟩ := hcn rfl
      refine ⟨hrr, ?_⟩
      intro j hj
      have := hcov j hj
      simpa using this

/-- When the scan never wrote the out-parameter, every frame is
untrackable: the circular scan starting at the hand covers every index. -/
theorem Victim_none_all_false (r r' : ClockReplacer)
    (hlen : r.inflag.length = r.buffer_size) (h : r.Victim = (none, r')) :
    r' = r ∧ ∀ f, r.inflag.getD f false = false := by
  obtain ⟨hrr, hcov⟩ := Victim_none_spec r r' h
  refine ⟨hrr, ?_⟩
  intro f
  by_cases hf : f < r.buffer_size
  · have hN : 0 < r.buffer_size := Nat.lt_of_le_of_lt (Nat.zero_le f) hf
    have hc : r.clk_ptr % r.buffer_size < r.buffer_size := Nat.mod_lt _ hN
    rcases le_or_lt (r.clk_ptr % r.buffer_size) f with hcf | hfc
    · have hj : (r.clk_ptr + (f - r.clk_ptr % r.buffer_size)) % r.buffer_size = f := by
        rw [Nat.add_mod, Nat.mod_eq_of_lt (by omega : f - r.clk_ptr % r.buffer_size < r.buffer_size)]
        rw [show r.clk_ptr % r.buffer_size + (f - r.clk_ptr % r.buffer_size) = f by omega]
        exact Nat.mod_eq_of_lt hf
      have := hcov (f - r.clk_ptr % r.buffer_size) (by omega)
      rwa [hj] at this
    · have hj : (r.clk_ptr + (f + r.buffer_size - r.clk_ptr % r.buffer_size)) %
          r.buffer_size = f := by
        rw [Nat.add_mod,
          Nat.mod_eq_of_lt (by omega : f + r.buffer_size - r.clk_ptr % r.buffer_size < r.buffer_size)]
        rw [show r.clk_ptr % r.buffer_size + (f + r.buffer_size - r.clk_ptr % r.buffer_size)
            = f + r.buffer_size by omega]
        rw [Nat.add_mod_right]
        exact Nat.mod_eq_of_lt hf
      have := hcov (f + r.buffer_size - r.clk_ptr % r.buffer_size) (by omega)
      rwa [hj] at this
  · exact List.getD_eq_default _ _ (by omega)

/-- If nothing is trackable, `Victim` fails and does not move the state. -/
theorem Victim_all_false (r : ClockReplacer)
    (h : ∀ f, r.inflag.getD f false = false) : r.Victim = (none, r) := by
  rcases hv : r.Victim with ⟨v, r'⟩
  cases v with
  | some f =>
    obtain ⟨hin, _⟩ := Victim_some_spec r f r' hv
    rw [h f] at hin
    exact absurd hin (by simp)
  | none =>
    obtain ⟨hrr, _⟩ := Victim_none_spec r r' hv
    rw [hrr]

/-! ## Helper lemmas: branch equations for the manager operations -/

theorem Flush_none_eq (m : BufferPoolManager) (pid : Int)
    (hpt : ptFind m.page_table pid = none) : FlushPageImpl m pid = (false, m) := by
  unfold FlushPageImpl
  rw [hpt]

theorem Flush_clean_eq (m : BufferPoolManager) (pid : Int) (f : Nat)
    (hpt : ptFind m.page_table pid = some f)
    (hd : (getPage m f).is_dirty = false) : FlushPageImpl m pid = (true, m) := by
  unfold FlushPageImpl
  simp only [hpt, hd]
  rfl

theorem Flush_dirty_eq (m : BufferPoolManager) (pid : Int) (f : Nat)
    (hpt : ptFind m.page_table pid = some f)
    (hd : (getPage m f).is_dirty = true) :
    FlushPageImpl m pid =
      (true,
        { m with
          disk := m.disk.WritePage pid (getPage m f).data
          pages := m.pages.set f { getPage m f with is_dirty := false } }) := by
  unfold FlushPageImpl
  simp only [hpt, hd]
  rfl

/-- A failed flush can only come from the page being absent, and then the
state is untouched. -/
theorem Flush_false_inv (m : BufferPoolManager) (pid : Int) (m' : BufferPoolManager)
    (h : FlushPageImpl m pid = (false, m')) : m' = m := by
  unfold FlushPageImpl at h
  cases hf : ptFind m.page_table pid with
  | none =>
    rw [hf] at h
    rw [Prod.mk.injEq] at h
    exact h.2.symm
  | some f =>
    simp only [hf] at h
    split at h <;> simp at h

theorem Unpin_none_eq (m : BufferPoolManager) (pid : Int) (dty : Bool)
    (hpt : ptFind m.page_table pid = none) : UnpinPageImpl m pid dty = (true, m) := by
  unfold UnpinPageImpl
  rw [hpt]

theorem Unpin_zero_eq (m : BufferPoolManager) (pid : Int) (dty : Bool) (f : Nat)
    (hpt : ptFind m.page_table pid = some f)
    (hp : (getPage m f).pin_count ≤ 0) : UnpinPageImpl m pid dty = (false, m) := by
  unfold UnpinPageImpl
  simp only [hpt]
  rw [if_pos hp]

theorem Unpin_dec_eq (m : BufferPoolManager) (pid : Int) (dty : Bool) (f : Nat)
    (hpt : ptFind m.page_table pid = some f)
    (hp : 0 < (getPage m f).pin_count) :
    UnpinPageImpl m pid dty =
      (let m1 : BufferPoolManager :=
        { m with
          pages := m.pages.set f
            { getPage m f with
              pin_count := (getPage m f).pin_count - 1
              is_dirty := (getPage m f).is_dirty || dty } }
       if (getPage m1 f).pin_count = 0 then
         (true, { m1 with replacer := m1.replacer.Unpin f })
       else (true, m1)) := by
  unfold UnpinPageImpl
  simp only [hpt]
  rw [if_neg (by omega)]

theorem Fetch_hit_eq (m : BufferPoolManager) (pid : Int) (junk p : Nat)
    (hpt : ptFind m.page_table pid = some p) :
    FetchPageImpl m pid junk =
      (some p,
        { m with
          replacer := m.replacer.Pin p
          pages := m.pages.set p
            { getPage m p with pin_count := (getPage m p).pin_count + 1 } }) := by
  unfold FetchPageImpl
  simp only [hpt]

theorem Fetch_free_eq (m : BufferPoolManager) (pid : Int) (junk f : Nat)
    (rest : List Nat) (hpt : ptFind m.page_table pid = none)
    (hfl : m.free_list = f :: rest) :
    FetchPageImpl m pid junk =
      (some f,
        { m with
          free_list := rest
          replacer := m.replacer.Pin f
          pages := m.pages.set f
            { getPage m f with
              pin_count := (getPage m f).pin_count + 1
              page_id := pid
              is_dirty := false
              data := m.disk.ReadPage pid }
          page_table := ptInsert m.page_table pid f }) := by
  unfold FetchPageImpl
  simp only [hpt, hfl]

theorem Fetch_exhausted_eq (m : BufferPoolManager) (pid : Int) (junk : Nat)
    (hpt : ptFind m.page_table pid = none) (hfl : m.free_list = [])
    (hv : (m.replacer.Victim).1 = none) :
    FetchPageImpl m pid junk = (none, { m with replacer := (m.replacer.Victim).2 }) := by
  unfold FetchPageImpl
  simp only [hpt, hfl]
  simp only [hv]

theorem Fetch_evict_eq (m : BufferPoolManager) (pid : Int) (junk f : Nat)
    (hpt : ptFind m.page_table pid = none) (hfl : m.free_list = [])
    (hv : (m.replacer.Victim).1 = some f) :
    FetchPageImpl m pid junk =
      (let m1 : BufferPoolManager := { m with replacer := (m.replacer.Victim).2 }
       if (getPage m1 f).is_dirty then
         let fres := FlushPageImpl m1 (getPage m1 f).page_id
         if fres.1 then evictBind fres.2 f (getPage m1 f).page_id pid
         else (none, fres.2)
       else evictBind m1 f (getPage m1 f).page_id pid) := by
  unfold FetchPageImpl
  simp only [hpt, hfl]
  simp only [victimReadIndex, hv]

theorem New_free_eq (m : BufferPoolManager) (junk f : Nat) (rest : List Nat)
    (hfl : m.free_list = f :: rest) :
    NewPageImpl m junk =
      (some (m.disk.next_page, f),
        { m with
          free_list := rest
          disk := (m.disk.AllocatePage).2
          pages := m.pages.set f
            { page_id := m.disk.next_page, pin_count := 1, is_dirty := false, data := 0 }
          replacer := m.replacer.Pin f
          page_table := ptInsert m.page_table m.disk.next_page f }) := by
  unfold NewPageImpl
  simp only [hfl]
  rfl

theorem New_exhausted_eq (m : BufferPoolManager) (junk : Nat)
    (hfl : m.free_list = []) (hv : (m.replacer.Victim).1 = none) :
    NewPageImpl m junk = (none, { m with replacer := (m.replacer.Victim).2 }) := by
  unfold NewPageImpl
  simp only [hfl]
  simp only [hv]

theorem New_evict_eq (m : BufferPoolManager) (junk f : Nat)
    (hfl : m.free_list = []) (hv : (m.replacer.Victim).1 = some f) :
    NewPageImpl m junk =
      (let m1 : BufferPoolManager := { m with replacer := (m.replacer.Victim).2 }
       if (getPage m1 f).is_dirty then
         let fres := FlushPageImpl m1 (getPage m1 f).page_id
         if fres.1 then newBind fres.2 f (getPage m1 f).page_id
         else (none, fres.2)
       else newBind m1 f (getPage m1 f).page_id) := by
  unfold NewPageImpl
  simp only [hfl]
  simp only [victimReadIndex, hv]

/-! ## Claim C1: DeletePage -/

/-- C1: the claim requires `DeletePage` to succeed on a non-resident page
(and to perform deallocation work on a resident unpinned one), but the
code's body is the stub `return false;`: on the fresh pool, where page 42
is not resident, the call returns failure, contradicting both the claim and
the function's own step comments. -/
theorem C1_deletePage_stub_returns_false :
    ptFind (initBPM 2 dInit).page_table 42 = none ∧
    DeletePageImpl (initBPM 2 dInit) 42 = (false, initBPM 2 dInit) :=
  ⟨rfl, rfl⟩

/-! ## Claim C2: NewPage failure and identifier allocation -/

/-- C2 counterexample: a `NewPage` call that fails with Exhausted (pool of
size 1 whose only frame is pinned) during which the storage collaborator is
never asked for an identifier: the whole disk state, including the
allocation counter, is unchanged — refuting the claim that a fresh
identifier was already allocated before the frame-acquisition attempt. -/
theorem C2_counterexample_no_prior_allocation :
    (NewPageImpl pool1Full 0).1 = none ∧
    (NewPageImpl pool1Full 0).2.disk = pool1Full.disk := by
  constructor
  · decide
  · decide

/-- C2 (amended): whenever `NewPage` fails, `AllocatePage` was never
invoked during the call — the identifier is allocated only after a frame
has been acquired, so no identifier is leaked on failure. -/
theorem C2_newpage_failure_allocates_nothing (m : BufferPoolManager) (junk : Nat)
    (h : (NewPageImpl m junk).1 = none) :
    (NewPageImpl m junk).2.disk = m.disk := by
  cases hfl : m.free_list with
  | cons f rest =>
    rw [New_free_eq m junk f rest hfl] at h
    simp at h
  | nil =>
    cases hv : (m.replacer.Victim).1 with
    | none => rw [New_exhausted_eq m junk hfl hv]
    | some f =>
      rw [New_evict_eq m junk f hfl hv] at h ⊢
      simp only at h ⊢
      by_cases hd :
          (getPage { m with replacer := (m.replacer.Victim).2 } f).is_dirty = true
      · rw [if_pos hd] at h ⊢
        rcases hfp : FlushPageImpl { m with replacer := (m.replacer.Victim).2 }
            (getPage { m with replacer := (m.replacer.Victim).2 } f).page_id with ⟨ok, m2⟩
        rw [hfp] at h
        simp only [hfp]
        cases ok with
        | false =>
          have hm2 := Flush_false_inv _ _ _ hfp
          simp only [hm2]
          simp
        | true =>
          rw [if_pos rfl] at h
          simp [newBind] at h
      · rw [if_neg hd] at h
        simp [newBind] at h

/-- C2 witness: the amended theorem applied to the concrete exhausted
pool. -/
theorem C2_witness :
    (NewPageImpl pool1Full 3).1 = none ∧
    (NewPageImpl pool1Full 3).2.disk = pool1Full.disk :=
  ⟨by decide, C2_newpage_failure_allocates_nothing pool1Full 3 (by decide)⟩

/-! ## Claim C3: Victim failure reporting -/

/-- C3: when no frame is trackable, `Victim` reports failure and leaves the
replacer unchanged; and whenever it reports success, the returned frame was
genuinely trackable (never a stale index): success is reported only when a
(fallback or immediate) candidate exists. -/
theorem C3_victim_failure_reporting (r : ClockReplacer) :
    ((∀ i, r.inflag.getD i false = false) → r.Victim = (none, r)) ∧
    (∀ f r', r.Victim = (some f, r') → r.inflag.getD f false = true) := by
  constructor
  · exact Victim_all_false r
  · intro f r' h
    exact (Victim_some_spec r f r' h).1

/-- C3 witness: the empty replacer of size 2 fails cleanly, and a
successful call on a one-frame replacer returns a trackable frame. -/
theorem C3_witness :
    (ClockReplacer.create 2).Victim = (none, ClockReplacer.create 2) ∧
    ({ clk_ptr := 0, buffer_size := 1, reflag := [false], inflag := [true] }
      : ClockReplacer).inflag.getD 0 false = true := by
  constructor
  · exact (C3_victim_failure_reporting (ClockReplacer.create 2)).1
      (fun i => getD_replicate 2 i false)
  · exact (C3_victim_failure_reporting
      { clk_ptr := 0, buffer_size := 1, reflag := [false], inflag := [true] }).2
      0 { clk_ptr := 0, buffer_size := 1, reflag := [false], inflag := [false] }
      (by decide)

/-! ## Claim C4: the replacer-only scenario -/

/-- C4: with frames `{0,1,2}` all unpinned (trackable, referenced) and the
hand at 0, one `Victim` call clears all three referenced bits, returns
frame 0 (the first-seen fallback), and leaves frames 1 and 2 trackable with
referenced bits cleared. -/
theorem C4_replacer_only_test :
    (victimDemoReplacer.Victim).1 = some 0 ∧
    ((victimDemoReplacer.Victim).2).reflag = [false, false, false] ∧
    ((victimDemoReplacer.Victim).2).inflag = [false, true, true] := by
  refine ⟨?_, ?_, ?_⟩ <;> decide

/-! ## Claim C10: the uninitialized read on the victim path -/

/-- C10: in the eviction branches of `FetchPage`/`NewPage` the frame index
used to read the victim's page id (before the success flag is checked) is,
whenever `Victim` finds no victim and therefore never writes its output
parameter, exactly the indeterminate initial value of the uninitialized
local — so the `pages_` access is not bounded by the pool size on that
path. -/
theorem C10_uninitialized_victim_read (m : BufferPoolManager) (junk : Nat)
    (h : (m.replacer.Victim).1 = none) :
    victimReadIndex m junk = junk ∧
    ∃ j, m.pool_size ≤ victimReadIndex m j := by
  have hval : ∀ j, victimReadIndex m j = j := by
    intro j
    unfold victimReadIndex
    rw [h]
  exact ⟨hval junk, ⟨m.pool_size, le_of_eq (hval m.pool_size).symm⟩⟩

/-- C10 witness: on the fresh pool of size 1 (nothing trackable), the read
index is whatever garbage the local held. -/
theorem C10_witness :
    victimReadIndex (initBPM 1 dInit) 7 = 7 ∧
    ∃ j, (initBPM 1 dInit).pool_size ≤ victimReadIndex (initBPM 1 dInit) j :=
  C10_uninitialized_victim_read (initBPM 1 dInit) 7 (by decide)

/-! ## Claim C5 counterexample -/

/-- C5 counterexample: the 3-operation sequence `FetchPage(0)`,
`UnpinPage(0,false)`, `NewPage()` on a fresh pool of size 2 reaches a state
where frame 0 is trackable in the replacer yet bound to no page-table entry
(the `NewPage` re-minted identifier 0 and overwrote the page-table entry of
the fetched page), refuting the unconditional trackable-iff-resident
invariant over all operation sequences. -/
theorem C5_counterexample_trackable_nonresident :
    ¬ (∀ f, trackLeakState.replacer.inflag.getD f false = true ↔
        ((∃ pid, ptFind trackLeakState.page_table pid = some f) ∧
          (getPage trackLeakState f).pin_count = 0)) := by
  intro h
  obtain ⟨⟨pid, hpid⟩, _⟩ := (h 0).mp (by decide)
  have hpt : trackLeakState.page_table = [(0, 1)] := by decide
  rw [hpt] at hpid
  simp only [ptFind] at hpid
  by_cases hp : (0 : Int) = pid
  · rw [if_pos hp] at hpid
    simp at hpid
  · rw [if_neg hp] at hpid
    simp at hpid

/-! ## Claims C7, C8, C9: UnpinPage and FlushPage behaviour -/

theorem set_of_length_le {α : Type} (l : List α) (i : Nat) (a : α)
    (h : l.length ≤ i) : l.set i a = l := by
  induction l generalizing i with
  | nil => rfl
  | cons hd tl ih =>
    cases i with
    | zero => simp at h
    | succ n => simp [ih n (by simpa using h)]

theorem runOps_cons (m : BufferPoolManager) (op : Op) (ops : List Op) :
    runOps m (op :: ops) = runOps (applyOp m op) ops := rfl

/-- One `UnpinPage(id, false)` call keeps the page resident in the same
frame, keeps the dirty bit set, and keeps the page-array length. -/
theorem unpin_false_step (m : BufferPoolManager) (id : Int) (f : Nat)
    (hres : ptFind m.page_table id = some f)
    (hd : (getPage m f).is_dirty = true)
    (hlen : f < m.pages.length) :
    ptFind (UnpinPageImpl m id false).2.page_table id = some f ∧
    (getPage (UnpinPageImpl m id false).2 f).is_dirty = true ∧
    (UnpinPageImpl m id false).2.pages.length = m.pages.length := by
  by_cases hp : (getPage m f).pin_count ≤ 0
  · rw [Unpin_zero_eq m id false f hres hp]
    exact ⟨hres, hd, rfl⟩
  · rw [Unpin_dec_eq m id false f hres (by omega)]
    simp only []
    split
    · refine ⟨hres, ?_, by simp⟩
      show ((m.pages.set f _).getD f pageDefault).is_dirty = true
      rw [getD_set_self _ _ _ _ hlen]
      simp [hd]
    · refine ⟨hres, ?_, by simp⟩
      show ((m.pages.set f _).getD f pageDefault).is_dirty = true
      rw [getD_set_self _ _ _ _ hlen]
      simp [hd]

/-- C7: once `UnpinPage(id, true)` succeeds on a resident page, the dirty
flag is set and survives any number of `UnpinPage(id, false)` calls, and an
explicit `FlushPage(id)` then clears it. -/
theorem C7_sticky_dirty (m : BufferPoolManager) (id : Int) (f : Nat) (k : Nat)
    (hres : ptFind m.page_table id = some f)
    (hlen : f < m.pages.length)
    (hsucc : (UnpinPageImpl m id true).1 = true) :
    (getPage (runOps (UnpinPageImpl m id true).2
        (List.replicate k (Op.unpin id false))) f).is_dirty = true ∧
    (getPage (FlushPageImpl (runOps (UnpinPageImpl m id true).2
        (List.replicate k (Op.unpin id false))) id).2 f).is_dirty = false := by
  have hp : 0 < (getPage m f).pin_count := by
    by_contra hp0
    rw [Unpin_zero_eq m id true f hres (by omega)] at hsucc
    simp at hsucc
  have hstart : ptFind (UnpinPageImpl m id true).2.page_table id = some f ∧
      (getPage (UnpinPageImpl m id true).2 f).is_dirty = true ∧
      (UnpinPageImpl m id true).2.pages.length = m.pages.length := by
    rw [Unpin_dec_eq m id true f hres hp]
    simp only []
    split
    · refine ⟨hres, ?_, by simp⟩
      show ((m.pages.set f _).getD f pageDefault).is_dirty = true
      rw [getD_set_self _ _ _ _ hlen]
      simp
    · refine ⟨hres, ?_, by simp⟩
      show ((m.pages.set f _).getD f pageDefault).is_dirty = true
      rw [getD_set_self _ _ _ _ hlen]
      simp
  have main : ∀ (n : Nat) (s : BufferPoolManager),
      ptFind s.page_table id = some f → (getPage s f).is_dirty = true →
      s.pages.length = m.pages.length →
      ptFind (runOps s (List.replicate n (Op.unpin id false))).page_table id = some f ∧
      (getPage (runOps s (List.replicate n (Op.unpin id false))) f).is_dirty = true ∧
      (runOps s (List.replicate n (Op.unpin id false))).pages.length = m.pages.length := by
    intro n
    induction n with
    | zero => intro s h1 h2 h3; exact ⟨h1, h2, h3⟩
    | succ n ih =>
      intro s h1 h2 h3
      rw [List.replicate_succ, runOps_cons]
      obtain ⟨s1, s2, s3⟩ := unpin_false_step s id f h1 h2 (by omega)
      exact ih _ s1 s2 (s3.trans h3)
  obtain ⟨m1, m2, m3⟩ := main k _ hstart.1 hstart.2.1 hstart.2.2
  refine ⟨m2, ?_⟩
  rw [Flush_dirty_eq _ id f m1 m2]
  simp only [getPage]
  rw [getD_set_self _ _ _ _ (by omega)]

/-- C7 witness: pool of size 1, page 0 pinned in frame 0; unpin dirty, two
clean unpins, then flush. -/
theorem C7_witness :
    (getPage (runOps (UnpinPageImpl pool1Full 0 true).2
        (List.replicate 2 (Op.unpin 0 false))) 0).is_dirty = true ∧
    (getPage (FlushPageImpl (runOps (UnpinPageImpl pool1Full 0 true).2
        (List.replicate 2 (Op.unpin 0 false))) 0).2 0).is_dirty = false :=
  C7_sticky_dirty pool1Full 0 0 2 (by decide) (by decide) (by decide)

/-- C8: `UnpinPage` is a successful no-op on a non-resident page; fails
without touching the state on a resident page with pin count 0; otherwise
succeeds, decrements the pin count, hands the frame to the replacer's
`Unpin` exactly when the count reaches zero (and leaves the replacer alone
otherwise); and it never drives a pin count negative. -/
theorem C8_unpin_page_spec (m : BufferPoolManager) (id : Int) (dty : Bool) :
    (ptFind m.page_table id = none → UnpinPageImpl m id dty = (true, m)) ∧
    (∀ f, ptFind m.page_table id = some f → (getPage m f).pin_count = 0 →
      UnpinPageImpl m id dty = (false, m)) ∧
    (∀ f, ptFind m.page_table id = some f → 0 < (getPage m f).pin_count →
      f < m.pages.length →
      (UnpinPageImpl m id dty).1 = true ∧
      (getPage (UnpinPageImpl m id dty).2 f).pin_count = (getPage m f).pin_count - 1 ∧
      ((getPage m f).pin_count = 1 →
        (UnpinPageImpl m id dty).2.replacer = m.replacer.Unpin f) ∧
      (1 < (getPage m f).pin_count →
        (UnpinPageImpl m id dty).2.replacer = m.replacer)) ∧
    (∀ g, 0 ≤ (getPage m g).pin_count → 0 ≤ (getPage (UnpinPageImpl m id dty).2 g).pin_count) := by
  refine ⟨fun h => Unpin_none_eq m id dty h,
    fun f hpt hp => Unpin_zero_eq m id dty f hpt (le_of_eq hp), ?_, ?_⟩
  · intro f hpt hp hlen
    by_cases hone : (getPage m f).pin_count = 1
    · have hcond : (getPage ({ m with pages := m.pages.set f ({ getPage m f with pin_count := (getPage m f).pin_count - 1, is_dirty := (getPage m f).is_dirty || dty }) }) f).pin_count = 0 := by
        simp only [getPage]
        rw [getD_set_self _ _ _ _ hlen]
        show (m.pages.getD f pageDefault).pin_count - 1 = 0
        simp only [getPage] at hone
        omega
      rw [Unpin_dec_eq m id dty f hpt hp]
      simp only []
      rw [if_pos hcond]
      refine ⟨rfl, ?_, fun _ => rfl, fun hgt => by omega⟩
      simp only [getPage]
      rw [getD_set_self _ _ _ _ hlen]
    · have hcond : ¬ (getPage ({ m with pages := m.pages.set f ({ getPage m f with pin_count := (getPage m f).pin_count - 1, is_dirty := (getPage m f).is_dirty || dty }) }) f).pin_count = 0 := by
        simp only [getPage]
        rw [getD_set_self _ _ _ _ hlen]
        show ¬ (m.pages.getD f pageDefault).pin_count - 1 = 0
        simp only [getPage] at hone hp
        omega
      rw [Unpin_dec_eq m id dty f hpt hp]
      simp only []
      rw [if_neg hcond]
      refine ⟨rfl, ?_, fun h1 => by omega, fun _ => rfl⟩
      simp only [getPage]
      rw [getD_set_self _ _ _ _ hlen]
  · intro g hg
    cases hfind : ptFind m.page_table id with
    | none => rw [Unpin_none_eq m id dty hfind]; exact hg
    | some f =>
      by_cases hp : (getPage m f).pin_count ≤ 0
      · rw [Unpin_zero_eq m id dty f hfind hp]; exact hg
      · rw [Unpin_dec_eq m id dty f hfind (by omega)]
        simp only []
        have hpages : ∀ (s : BufferPoolManager), s.pages = m.pages.set f
            { getPage m f with
              pin_count := (getPage m f).pin_count - 1
              is_dirty := (getPage m f).is_dirty || dty } →
            0 ≤ (getPage s g).pin_count := by
          intro s hs
          show 0 ≤ (s.pages.getD g pageDefault).pin_count
          rw [hs]
          by_cases hgf : f = g
          · subst hgf
            by_cases hl : f < m.pages.length
            · rw [getD_set_self _ _ _ _ hl]
              simp only []
              omega
            · rw [set_of_length_le _ _ _ (by omega)]
              exact hg
          · rw [getD_set_ne _ _ _ hgf]
            exact hg
        split
        · exact hpages _ rfl
        · exact hpages _ rfl

/-- C8 witness: the three interesting branches exercised on concrete
pools. -/
theorem C8_witness :
    ((UnpinPageImpl pool1Full 0 false).1 = true ∧
      (getPage (UnpinPageImpl pool1Full 0 false).2 0).pin_count
        = (getPage pool1Full 0).pin_count - 1 ∧
      ((getPage pool1Full 0).pin_count = 1 →
        (UnpinPageImpl pool1Full 0 false).2.replacer = pool1Full.replacer.Unpin 0) ∧
      (1 < (getPage pool1Full 0).pin_count →
        (UnpinPageImpl pool1Full 0 false).2.replacer = pool1Full.replacer)) ∧
    UnpinPageImpl pool1Full 7 false = (true, pool1Full) :=
  ⟨(C8_unpin_page_spec pool1Full 0 false).2.2.1 0 (by decide) (by decide) (by decide),
    (C8_unpin_page_spec pool1Full 7 false).1 (by decide)⟩

/-- C9: `FlushPage` fails on a non-resident page; succeeds without invoking
`WritePage` (state unchanged) on a clean resident page; and on a dirty
resident page invokes `WritePage` with the frame's bytes, clears the dirty
flag and succeeds. -/
theorem C9_flush_page_spec (m : BufferPoolManager) (id : Int) :
    (ptFind m.page_table id = none → FlushPageImpl m id = (false, m)) ∧
    (∀ f, ptFind m.page_table id = some f → (getPage m f).is_dirty = false →
      FlushPageImpl m id = (true, m)) ∧
    (∀ f, ptFind m.page_table id = some f → (getPage m f).is_dirty = true →
      (FlushPageImpl m id).1 = true ∧
      (FlushPageImpl m id).2.disk.writes = m.disk.writes ++ [(id, (getPage m f).data)] ∧
      (f < m.pages.length → (getPage (FlushPageImpl m id).2 f).is_dirty = false)) := by
  refine ⟨fun h => Flush_none_eq m id h, fun f hpt hd => Flush_clean_eq m id f hpt hd, ?_⟩
  intro f hpt hd
  rw [Flush_dirty_eq m id f hpt hd]
  refine ⟨rfl, rfl, ?_⟩
  intro hlen
  show ((m.pages.set f _).getD f pageDefault).is_dirty = false
  rw [getD_set_self _ _ _ _ hlen]

/-- A pool of size 1 whose single page is resident, unpinned and dirty. -/
def dirtyPool : BufferPoolManager := (UnpinPageImpl pool1Full 0 true).2

/-- C9 witness: the dirty branch on a concrete pool, plus the clean no-op
branch. -/
theorem C9_witness :
    ((FlushPageImpl dirtyPool 0).1 = true ∧
      (FlushPageImpl dirtyPool 0).2.disk.writes
        = dirtyPool.disk.writes ++ [(0, (getPage dirtyPool 0).data)] ∧
      (0 < dirtyPool.pages.length →
        (getPage (FlushPageImpl dirtyPool 0).2 0).is_dirty = false)) ∧
    FlushPageImpl pool1Full 0 = (true, pool1Full) :=
  ⟨(C9_flush_page_spec dirtyPool 0).2.2 0 (by decide) (by decide),
    (C9_flush_page_spec pool1Full 0).2.1 0 (by decide) (by decide)⟩

/-! ## Claim C5: the trackable-iff-resident-and-unpinned invariant -/

theorem Pin_eq (r : ClockReplacer) (f : Nat) (hlt : f < r.buffer_size) :
    r.Pin f = { r with inflag := r.inflag.set f false } := by
  unfold ClockReplacer.Pin
  rw [if_neg (by omega)]

theorem Unpin_eq (r : ClockReplacer) (f : Nat) (hlt : f < r.buffer_size) :
    r.Unpin f =
      { r with inflag := r.inflag.set f true, reflag := r.reflag.set f true } := by
  unfold ClockReplacer.Unpin
  rw [if_neg (by omega)]

/-- Reading a list after a point update. -/
theorem getD_set_cases (l : List Page) (f g : Nat) (pg : Page) :
    (l.set f pg).getD g pageDefault =
      if f = g ∧ f < l.length then pg else l.getD g pageDefault := by
  by_cases hfg : f = g
  · subst hfg
    by_cases hl : f < l.length
    · rw [getD_set_self _ _ _ _ hl, if_pos ⟨rfl, hl⟩]
    · rw [set_of_length_le _ _ _ (by omega), if_neg (by omega)]
  · rw [getD_set_ne _ _ _ hfg, if_neg (by simp [hfg])]

/-- The same, for the Boolean flag vectors of the replacer. -/
theorem getD_set_cases_bool (l : List Bool) (f g : Nat) (b : Bool) :
    (l.set f b).getD g false =
      if f = g ∧ f < l.length then b else l.getD g false := by
  by_cases hfg : f = g
  · subst hfg
    by_cases hl : f < l.length
    · rw [getD_set_self _ _ _ _ hl, if_pos ⟨rfl, hl⟩]
    · rw [show l.set f b = l by
        induction l generalizing f with
        | nil => rfl
        | cons hd tl ih =>
          cases f with
          | zero => simp at hl
          | succ n => simp [ih n (by simp at hl ⊢; omega)],
        if_neg (by omega)]
  · rw [getD_set_ne _ _ _ hfg, if_neg (by simp [hfg])]

/-- The fresh pool satisfies the invariant. -/
theorem inv_init (N : Nat) (d : DiskManager) : Inv (initBPM N d) := by
  refine ⟨by simp [initBPM], rfl, by simp [initBPM, ClockReplacer.create],
    by simp [initBPM, ClockReplacer.create], ?_, ?_, ?_, ?_, ?_, ?_⟩
  · intro pid f h
    simp [initBPM, ptFind] at h
  · intro p₁ p₂ f h
    simp [initBPM, ptFind] at h
  · intro f
    show 0 ≤ ((List.replicate N pageDefault).getD f pageDefault).pin_count
    rw [getD_replicate]
    decide
  · exact List.nodup_range N
  · intro f hf
    refine ⟨by simpa [initBPM] using hf, ?_, ?_⟩
    · show ((List.replicate N pageDefault).getD f pageDefault).pin_count = 0
      rw [getD_replicate]
      decide
    · intro pid h
      simp [initBPM, ptFind] at h
  · intro f
    constructor
    · intro h
      rw [show (initBPM N d).replacer.inflag = List.replicate N false from rfl,
        getD_replicate] at h
      simp at h
    · rintro ⟨⟨pid, hpid⟩, _⟩
      simp [initBPM, ptFind] at hpid

/-- `FlushPage` preserves the invariant. -/
theorem inv_flush (m : BufferPoolManager) (pid : Int) (hi : Inv m) :
    Inv (FlushPageImpl m pid).2 := by
  cases hfind : ptFind m.page_table pid with
  | none => rw [Flush_none_eq m pid hfind]; exact hi
  | some f =>
    cases hd : (getPage m f).is_dirty with
    | false => rw [Flush_clean_eq m pid f hfind hd]; exact hi
    | true =>
      rw [Flush_dirty_eq m pid f hfind hd]
      have hpg : ∀ g, getPage
          ({ m with
            disk := m.disk.WritePage pid (getPage m f).data
            pages := m.pages.set f { getPage m f with is_dirty := false } }) g
          = if f = g ∧ f < m.pages.length
            then { getPage m f with is_dirty := false } else getPage m g := by
        intro g
        show (m.pages.set f _).getD g pageDefault = _
        rw [getD_set_cases]
        rfl
      refine ⟨by simpa using hi.hpages, hi.hbuf, hi.hin, hi.href, ?_, hi.hinj, ?_,
        hi.hnd, ?_, ?_⟩
      · intro q g hq
        obtain ⟨h1, h2, h3⟩ := hi.hpt q g hq
        refine ⟨h1, ?_, h3⟩
        rw [hpg g]
        split
        · rename_i hc
          obtain ⟨rfl, _⟩ := hc
          simpa using h2
        · exact h2
      · intro g
        rw [hpg g]
        split
        · rename_i hc
          obtain ⟨rfl, _⟩ := hc
          simpa using hi.hpin f
        · exact hi.hpin g
      · intro g hg
        obtain ⟨h1, h2, h3⟩ := hi.hfree g hg
        refine ⟨h1, ?_, h3⟩
        rw [hpg g]
        split
        · rename_i hc
          obtain ⟨rfl, _⟩ := hc
          simpa using h2
        · exact h2
      · intro g
        rw [show ({ m with
            disk := m.disk.WritePage pid (getPage m f).data
            pages := m.pages.set f { getPage m f with is_dirty := false } }
            : BufferPoolManager).replacer = m.replacer from rfl]
        rw [hpg g]
        split
        · rename_i hc
          obtain ⟨rfl, _⟩ := hc
          simpa using hi.htrack f
        · exact hi.htrack g

/-- The invariant is preserved by any state whose only changes are a pin
count/dirty update of one resident frame plus a matching replacer update. -/
theorem inv_update_pin (m : BufferPoolManager) (hi : Inv m) (f : Nat) (pid : Int)
    (pg : Page) (rep2 : ClockReplacer) (S : BufferPoolManager)
    (hfind : ptFind m.page_table pid = some f)
    (hSpages : S.pages = m.pages.set f pg)
    (hSrep : S.replacer = rep2)
    (hSpt : S.page_table = m.page_table)
    (hSfl : S.free_list = m.free_list)
    (hSdisk : S.disk = m.disk)
    (hSpool : S.pool_size = m.pool_size)
    (hpgid : pg.page_id = (getPage m f).page_id)
    (hpgpos : 0 ≤ pg.pin_count)
    (hrep : ∀ g, rep2.inflag.getD g false = true ↔
        ((m.replacer.inflag.getD g false = true ∧ g ≠ f) ∨ (g = f ∧ pg.pin_count = 0)))
    (hb : rep2.buffer_size = m.pool_size)
    (hl : rep2.inflag.length = m.pool_size)
    (hr : rep2.reflag.length = m.pool_size) :
    Inv S := by
  obtain ⟨hfpool, hfid, hfnext⟩ := hi.hpt pid f hfind
  have hflen : f < m.pages.length := by rw [hi.hpages]; exact hfpool
  have hgetS : ∀ g, getPage S g = if f = g then pg else getPage m g := by
    intro g
    show S.pages.getD g pageDefault = _
    rw [hSpages, getD_set_cases]
    by_cases hfg : f = g
    · rw [if_pos ⟨hfg, hflen⟩, if_pos hfg]
    · rw [if_neg (by simp [hfg]), if_neg hfg]
      rfl
  refine ⟨?_, ?_, ?_, ?_, ?_, ?_, ?_, ?_, ?_, ?_⟩
  · rw [hSpages, hSpool]
    simpa using hi.hpages
  · rw [hSrep, hSpool]
    exact hb
  · rw [hSrep, hSpool]
    exact hl
  · rw [hSrep, hSpool]
    exact hr
  · intro q g hq
    rw [hSpt] at hq
    obtain ⟨h1, h2, h3⟩ := hi.hpt q g hq
    refine ⟨by rw [hSpool]; exact h1, ?_, by rw [hSdisk]; exact h3⟩
    rw [hgetS g]
    by_cases hfg : f = g
    · subst hfg
      rw [if_pos rfl, hpgid]
      exact h2
    · rw [if_neg hfg]
      exact h2
  · intro q1 q2 g h1 h2
    rw [hSpt] at h1 h2
    exact hi.hinj q1 q2 g h1 h2
  · intro g
    rw [hgetS g]
    by_cases hfg : f = g
    · rw [if_pos hfg]
      exact hpgpos
    · rw [if_neg hfg]
      exact hi.hpin g
  · rw [hSfl]
    exact hi.hnd
  · intro g hg
    rw [hSfl] at hg
    obtain ⟨h1, h2, h3⟩ := hi.hfree g hg
    refine ⟨by rw [hSpool]; exact h1, ?_, ?_⟩
    · rw [hgetS g]
      by_cases hfg : f = g
      · subst hfg
        exact absurd hfind (h3 pid)
      · rw [if_neg hfg]
        exact h2
    · intro q
      rw [hSpt]
      exact h3 q
  · intro g
    rw [hSrep, hrep g, hgetS g]
    by_cases hgf : g = f
    · subst hgf
      rw [if_pos rfl]
      constructor
      · rintro (⟨_, hne⟩ | ⟨_, hz⟩)
        · exact absurd rfl hne
        · exact ⟨⟨pid, by rw [hSpt]; exact hfind⟩, hz⟩
      · rintro ⟨_, hz⟩
        exact Or.inr ⟨rfl, hz⟩
    · rw [if_neg (fun h => hgf h.symm)]
      constructor
      · rintro (⟨ht, _⟩ | ⟨hgf2, _⟩)
        · obtain ⟨⟨q, hq⟩, hz⟩ := (hi.htrack g).mp ht
          exact ⟨⟨q, by rw [hSpt]; exact hq⟩, hz⟩
        · exact absurd hgf2 hgf
      · rintro ⟨⟨q, hq⟩, hz⟩
        rw [hSpt] at hq
        exact Or.inl ⟨(hi.htrack g).mpr ⟨⟨q, hq⟩, hz⟩, hgf⟩

/-- `UnpinPage` preserves the invariant. -/
theorem inv_unpin (m : BufferPoolManager) (pid : Int) (dty : Bool) (hi : Inv m) :
    Inv (UnpinPageImpl m pid dty).2 := by
  cases hfind : ptFind m.page_table pid with
  | none => rw [Unpin_none_eq m pid dty hfind]; exact hi
  | some f =>
    by_cases hp : (getPage m f).pin_count ≤ 0
    · rw [Unpin_zero_eq m pid dty f hfind hp]; exact hi
    · obtain ⟨hfpool, hfid, hfnext⟩ := hi.hpt pid f hfind
      have hflen : f < m.pages.length := by rw [hi.hpages]; exact hfpool
      have hpgval :
          (getPage ({ m with pages := m.pages.set f { getPage m f with pin_count := (getPage m f).pin_count - 1, is_dirty := (getPage m f).is_dirty || dty } }) f).pin_count
          = (getPage m f).pin_count - 1 := by
        show ((m.pages.set f _).getD f pageDefault).pin_count = _
        rw [getD_set_self _ _ _ _ hflen]
      rw [Unpin_dec_eq m pid dty f hfind (by omega)]
      simp only []
      split
      · rename_i hz
        rw [hpgval] at hz
        refine inv_update_pin m hi f pid _ _ _ hfind rfl rfl rfl rfl rfl rfl
          rfl (by show (0 : Int) ≤ (getPage m f).pin_count - 1; omega) ?_ ?_ ?_ ?_
        · intro g
          show ((m.replacer.Unpin f).inflag.getD g false = true) ↔ _
          rw [Unpin_eq m.replacer f (by rw [hi.hbuf]; exact hfpool)]
          show ((m.replacer.inflag.set f true).getD g false = true) ↔ _
          rw [getD_set_cases_bool]
          by_cases hfg : f = g
          · subst hfg
            rw [if_pos ⟨rfl, by rw [hi.hin]; exact hfpool⟩]
            simp only []
            constructor
            · intro _
              exact Or.inr ⟨trivial, hz⟩
            · intro _
              trivial
          · rw [if_neg (by simp [hfg])]
            constructor
            · intro h
              exact Or.inl ⟨h, fun hc => hfg hc.symm⟩
            · rintro (⟨h, _⟩ | ⟨hgf2, _⟩)
              · exact h
              · exact absurd hgf2.symm hfg
        · show (m.replacer.Unpin f).buffer_size = m.pool_size
          rw [Unpin_eq m.replacer f (by rw [hi.hbuf]; exact hfpool)]
          exact hi.hbuf
        · show (m.replacer.Unpin f).inflag.length = m.pool_size
          rw [Unpin_eq m.replacer f (by rw [hi.hbuf]; exact hfpool)]
          show (m.replacer.inflag.set f true).length = m.pool_size
          simpa using hi.hin
        · show (m.replacer.Unpin f).reflag.length = m.pool_size
          rw [Unpin_eq m.replacer f (by rw [hi.hbuf]; exact hfpool)]
          show (m.replacer.reflag.set f true).length = m.pool_size
          simpa using hi.href
      · rename_i hz
        rw [hpgval] at hz
        refine inv_update_pin m hi f pid _ _ _ hfind rfl rfl rfl rfl rfl rfl
          rfl (by show (0 : Int) ≤ (getPage m f).pin_count - 1; omega) ?_ hi.hbuf hi.hin hi.href
        intro g
        constructor
        · intro h
          by_cases hgf : g = f
          · subst hgf
            obtain ⟨_, hz0⟩ := (hi.htrack g).mp h
            omega
          · exact Or.inl ⟨h, hgf⟩
        · rintro (⟨h, _⟩ | ⟨_, hc⟩)
          · exact h
          · simp only [] at hc
            exact absurd hc hz

/-- The invariant is preserved by binding a fresh page `pid` (not currently
a page-table key) into frame `f` with a positive pin count: this covers the
free-list and eviction branches of both `FetchPage` and `NewPage`. -/
theorem inv_rebind (m : BufferPoolManager) (hi : Inv m)
    (f : Nat) (pid pin₁ : Int) (dat : Nat)
    (pgs : List Page) (rep' : ClockReplacer) (pt0 : List (Int × Nat))
    (S : BufferPoolManager)
    (hSpages : S.pages =
      pgs.set f { page_id := pid, pin_count := pin₁, is_dirty := false, data := dat })
    (hSrep : S.replacer = rep'.Pin f)
    (hSpt : S.page_table = ptInsert pt0 pid f)
    (hSpool : S.pool_size = m.pool_size)
    (hf : f < m.pool_size)
    (hpin₁ : 0 < pin₁)
    (hpgs : ∀ g, g ≠ f → pgs.getD g pageDefault = getPage m g)
    (hpgslen : pgs.length = m.pages.length)
    (hrepin : ∀ g, g ≠ f → rep'.inflag.getD g false = m.replacer.inflag.getD g false)
    (hrepbuf : rep'.buffer_size = m.replacer.buffer_size)
    (hreplen : rep'.inflag.length = m.replacer.inflag.length)
    (hrefl : rep'.reflag.length = m.replacer.reflag.length)
    (hpt0sub : ∀ q g, ptFind pt0 q = some g → ptFind m.page_table q = some g)
    (hpt0sup : ∀ q g, ptFind m.page_table q = some g → g ≠ f → ptFind pt0 q = some g)
    (hpt0notf : ∀ q, ptFind pt0 q ≠ some f)
    (hfl' : ∀ g ∈ S.free_list, g ∈ m.free_list ∧ g ≠ f)
    (hflnd : S.free_list.Nodup)
    (hpidfresh : ∀ g, ptFind m.page_table pid ≠ some g)
    (hnextmono : m.disk.next_page ≤ S.disk.next_page)
    (hpidnext : pid < S.disk.next_page) :
    Inv S := by
  have hflen' : f < pgs.length := by rw [hpgslen, hi.hpages]; exact hf
  have hfbuf : f < rep'.buffer_size := by rw [hrepbuf, hi.hbuf]; exact hf
  have hgetS : ∀ g, getPage S g =
      if f = g then ({ page_id := pid, pin_count := pin₁, is_dirty := false, data := dat } : Page)
      else getPage m g := by
    intro g
    show S.pages.getD g pageDefault = _
    rw [hSpages, getD_set_cases]
    by_cases hfg : f = g
    · rw [if_pos ⟨hfg, hflen'⟩, if_pos hfg]
    · rw [if_neg (by simp [hfg]), if_neg hfg]
      exact hpgs g (fun hc => hfg hc.symm)
  have hptS : ∀ q, ptFind S.page_table q =
      if q = pid then some f else ptFind pt0 q := by
    intro q
    rw [hSpt, ptFind_insert]
  have hinS : ∀ g, S.replacer.inflag.getD g false =
      if f = g then false else m.replacer.inflag.getD g false := by
    intro g
    rw [hSrep, Pin_eq rep' f hfbuf]
    show (rep'.inflag.set f false).getD g false = _
    rw [getD_set_cases_bool]
    by_cases hfg : f = g
    · rw [if_pos ⟨hfg, by rw [hreplen, hi.hin]; exact hf⟩, if_pos hfg]
    · rw [if_neg (by simp [hfg]), if_neg hfg]
      exact hrepin g (fun hc => hfg hc.symm)
  refine ⟨?_, ?_, ?_, ?_, ?_, ?_, ?_, hflnd, ?_, ?_⟩
  · rw [hSpages, hSpool]
    simp only [List.length_set]
    rw [hpgslen, hi.hpages]
  · rw [hSrep, hSpool, Pin_eq rep' f hfbuf]
    show rep'.buffer_size = m.pool_size
    rw [hrepbuf, hi.hbuf]
  · rw [hSrep, hSpool, Pin_eq rep' f hfbuf]
    show (rep'.inflag.set f false).length = m.pool_size
    simp only [List.length_set]
    rw [hreplen, hi.hin]
  · rw [hSrep, hSpool, Pin_eq rep' f hfbuf]
    show rep'.reflag.length = m.pool_size
    rw [hrefl, hi.href]
  · intro q g hq
    rw [hptS q] at hq
    by_cases hq1 : q = pid
    · rw [if_pos hq1] at hq
      have hfg : f = g := by injection hq
      subst hfg
      refine ⟨by rw [hSpool]; exact hf, ?_, by rw [hq1]; exact hpidnext⟩
      rw [hgetS f, if_pos rfl, hq1]
    · rw [if_neg hq1] at hq
      have hg := hpt0sub q g hq
      obtain ⟨h1, h2, h3⟩ := hi.hpt q g hg
      have hgf : g ≠ f := fun hc => hpt0notf q (hc ▸ hq)
      refine ⟨by rw [hSpool]; exact h1, ?_, by omega⟩
      rw [hgetS g, if_neg (fun hc => hgf hc.symm)]
      exact h2
  · intro q1 q2 g hq1 hq2
    rw [hptS q1] at hq1
    rw [hptS q2] at hq2
    by_cases ha : q1 = pid <;> by_cases hb : q2 = pid
    · rw [ha, hb]
    · rw [if_pos ha] at hq1
      rw [if_neg hb] at hq2
      have hfg : f = g := by injection hq1
      exact absurd hq2 (hfg ▸ hpt0notf q2)
    · rw [if_neg ha] at hq1
      rw [if_pos hb] at hq2
      have hfg : f = g := by injection hq2
      exact absurd hq1 (hfg ▸ hpt0notf q1)
    · rw [if_neg ha] at hq1
      rw [if_neg hb] at hq2
      exact hi.hinj q1 q2 g (hpt0sub q1 g hq1) (hpt0sub q2 g hq2)
  · intro g
    rw [hgetS g]
    by_cases hfg : f = g
    · rw [if_pos hfg]
      simp only []
      omega
    · rw [if_neg hfg]
      exact hi.hpin g
  · intro g hg
    obtain ⟨hmem, hgf⟩ := hfl' g hg
    obtain ⟨h1, h2, h3⟩ := hi.hfree g hmem
    refine ⟨by rw [hSpool]; exact h1, ?_, ?_⟩
    · rw [hgetS g, if_neg (fun hc => hgf hc.symm)]
      exact h2
    · intro q
      rw [hptS q]
      by_cases hq1 : q = pid
      · rw [if_pos hq1]
        intro hc
        have : f = g := by injection hc
        exact hgf this.symm
      · rw [if_neg hq1]
        intro hc
        exact h3 q (hpt0sub q g hc)
  · intro g
    rw [hinS g]
    by_cases hfg : f = g
    · rw [if_pos hfg]
      constructor
      · intro h
        simp at h
      · rintro ⟨_, hz⟩
        rw [hgetS g, if_pos hfg] at hz
        simp only [] at hz
        omega
    · rw [if_neg hfg]
      constructor
      · intro h
        obtain ⟨⟨q, hq⟩, hz⟩ := (hi.htrack g).mp h
        have hq1 : q ≠ pid := by
          intro hc
          exact hpidfresh g (hc ▸ hq)
        refine ⟨⟨q, ?_⟩, ?_⟩
        · rw [hptS q, if_neg hq1]
          exact hpt0sup q g hq (fun hc => hfg hc.symm)
        · rw [hgetS g, if_neg hfg]
          exact hz
      · rintro ⟨⟨q, hq⟩, hz⟩
        rw [hptS q] at hq
        rw [hgetS g, if_neg hfg] at hz
        by_cases hq1 : q = pid
        · rw [if_pos hq1] at hq
          have : f = g := by injection hq
          exact absurd this hfg
        · rw [if_neg hq1] at hq
          exact (hi.htrack g).mpr ⟨⟨q, hpt0sub q g hq⟩, hz⟩

/-- `FetchPage` preserves the invariant, provided the requested identifier
could already have been allocated. -/
theorem inv_fetch (m : BufferPoolManager) (pid : Int) (junk : Nat) (hi : Inv m)
    (hadm : pid < m.disk.next_page) : Inv (FetchPageImpl m pid junk).2 := by
  cases hfind : ptFind m.page_table pid with
  | some p =>
    rw [Fetch_hit_eq m pid junk p hfind]
    obtain ⟨hppool, hpid2, hpnext⟩ := hi.hpt pid p hfind
    refine inv_update_pin m hi p pid _ _ _ hfind rfl rfl rfl rfl rfl rfl rfl ?_ ?_ ?_ ?_ ?_
    · show (0 : Int) ≤ (getPage m p).pin_count + 1
      have := hi.hpin p
      omega
    · intro g
      show ((m.replacer.Pin p).inflag.getD g false = true) ↔ _
      rw [Pin_eq m.replacer p (by rw [hi.hbuf]; exact hppool)]
      show ((m.replacer.inflag.set p false).getD g false = true) ↔ _
      rw [getD_set_cases_bool]
      by_cases hpg : p = g
      · subst hpg
        rw [if_pos ⟨rfl, by rw [hi.hin]; exact hppool⟩]
        constructor
        · intro h
          simp at h
        · rintro (⟨_, hne⟩ | ⟨_, hz⟩)
          · exact absurd rfl hne
          · exfalso
            have hz' : (getPage m p).pin_count + 1 = 0 := hz
            have := hi.hpin p
            omega
      · rw [if_neg (fun hc => hpg hc.1)]
        constructor
        · intro h
          exact Or.inl ⟨h, fun hc => hpg hc.symm⟩
        · rintro (⟨h, _⟩ | ⟨hgp, _⟩)
          · exact h
          · exact absurd hgp.symm hpg
    · show (m.replacer.Pin p).buffer_size = m.pool_size
      rw [Pin_eq m.replacer p (by rw [hi.hbuf]; exact hppool)]
      exact hi.hbuf
    · show (m.replacer.Pin p).inflag.length = m.pool_size
      rw [Pin_eq m.replacer p (by rw [hi.hbuf]; exact hppool)]
      show (m.replacer.inflag.set p false).length = m.pool_size
      simp only [List.length_set]
      exact hi.hin
    · show (m.replacer.Pin p).reflag.length = m.pool_size
      rw [Pin_eq m.replacer p (by rw [hi.hbuf]; exact hppool)]
      exact hi.href
  | none =>
    cases hfl : m.free_list with
    | cons f rest =>
      rw [Fetch_free_eq m pid junk f rest hfind hfl]
      obtain ⟨hf1, hf2, hf3⟩ := hi.hfree f (by rw [hfl]; exact List.mem_cons_self f rest)
      have hnd := hi.hnd
      rw [hfl] at hnd
      refine inv_rebind m hi f pid _ _ _ _ _ _ rfl rfl rfl rfl hf1 ?_ ?_ ?_ ?_ ?_ ?_ ?_
        ?_ ?_ hf3 ?_ ?_ ?_ ?_ ?_
      · show (0 : Int) < (getPage m f).pin_count + 1
        have := hi.hpin f
        omega
      · exact fun g _ => rfl
      · rfl
      · exact fun g _ => rfl
      · rfl
      · rfl
      · rfl
      · exact fun q g h => h
      · exact fun q g h _ => h
      · intro g hg
        have hgrest : g ∈ rest := hg
        refine ⟨by rw [hfl]; exact List.mem_cons_of_mem f hgrest, ?_⟩
        intro hc
        exact (List.nodup_cons.mp hnd).1 (hc ▸ hgrest)
      · exact (List.nodup_cons.mp hnd).2
      · intro g h
        rw [hfind] at h
        cases h
      · exact le_refl _
      · exact hadm
    | nil =>
      cases hv : (m.replacer.Victim).1 with
      | none =>
        rw [Fetch_exhausted_eq m pid junk hfind hfl hv]
        have hpair : m.replacer.Victim = (none, (m.replacer.Victim).2) := by
          rw [← hv]
        obtain ⟨hrr, _⟩ := Victim_none_spec _ _ hpair
        rw [hrr]
        exact hi
      | some f =>
        rw [Fetch_evict_eq m pid junk f hfind hfl hv]
        simp only []
        have hpair : m.replacer.Victim = (some f, (m.replacer.Victim).2) := by
          rw [← hv]
        obtain ⟨hinf, hset, hbufv, hlinv, hrefv⟩ := Victim_some_spec _ _ _ hpair
        obtain ⟨⟨epid, hres⟩, hpin0⟩ := (hi.htrack f).mp hinf
        obtain ⟨hfpool, hfid, hfnext⟩ := hi.hpt epid f hres
        have hflen : f < m.pages.length := by rw [hi.hpages]; exact hfpool
        have hPid : (getPage ({ m with replacer := (m.replacer.Victim).2 }
            : BufferPoolManager) f).page_id = epid := hfid
        rw [hPid]
        have hrepin2 : ∀ g, g ≠ f →
            ((m.replacer.Victim).2).inflag.getD g false
              = m.replacer.inflag.getD g false := by
          intro g hg
          rw [hset, getD_set_cases_bool, if_neg (fun hc => hg hc.1.symm)]
        have hsub : ∀ q g, ptFind (ptErase m.page_table epid) q = some g →
            ptFind m.page_table q = some g := by
          intro q g h
          rw [ptFind_erase] at h
          by_cases hq : q = epid
          · rw [if_pos hq] at h
            cases h
          · rw [if_neg hq] at h
            exact h
        have hsup : ∀ q g, ptFind m.page_table q = some g → g ≠ f →
            ptFind (ptErase m.page_table epid) q = some g := by
          intro q g h hgf
          rw [ptFind_erase]
          by_cases hq : q = epid
          · exfalso
            rw [hq] at h
            have h4 : g = f := by
              have h3 : some g = some f := h.symm.trans hres
              injection h3
            exact hgf h4
          · rw [if_neg hq]
            exact h
        have hnotf : ∀ q, ptFind (ptErase m.page_table epid) q ≠ some f := by
          intro q h
          rw [ptFind_erase] at h
          by_cases hq : q = epid
          · rw [if_pos hq] at h
            cases h
          · rw [if_neg hq] at h
            exact hq (hi.hinj q epid f h hres)
        have hfresh : ∀ g, ptFind m.page_table pid ≠ some g := by
          intro g h
          rw [hfind] at h
          cases h
        by_cases hd : (getPage ({ m with replacer := (m.replacer.Victim).2 }
            : BufferPoolManager) f).is_dirty = true
        · rw [if_pos hd]
          have hresM1 : ptFind ({ m with replacer := (m.replacer.Victim).2 }
              : BufferPoolManager).page_table epid = some f := hres
          rw [Flush_dirty_eq _ epid f hresM1 hd]
          rw [if_pos rfl]
          simp only [evictBind]
          refine inv_rebind m hi f pid _ _ _ _ _ _ rfl rfl rfl rfl hfpool ?_ ?_ ?_ ?_
            hbufv hlinv hrefv hsub hsup hnotf ?_ hi.hnd hfresh ?_ hadm
          · show (0 : Int) <
              ((m.pages.set f { getPage m f with is_dirty := false }).getD
                f pageDefault).pin_count + 1
            rw [getD_set_self _ _ _ _ hflen]
            show (0 : Int) < (getPage m f).pin_count + 1
            omega
          · intro g hg
            show (m.pages.set f _).getD g pageDefault = getPage m g
            rw [getD_set_cases, if_neg (fun hc => hg hc.1.symm)]
            rfl
          · show (m.pages.set f _).length = m.pages.length
            simp only [List.length_set]
          · exact hrepin2
          · intro g hg
            exfalso
            have hg2 : g ∈ m.free_list := hg
            rw [hfl] at hg2
            cases hg2
          · exact le_refl _
        · rw [if_neg hd]
          simp only [evictBind]
          refine inv_rebind m hi f pid _ _ _ _ _ _ rfl rfl rfl rfl hfpool ?_ ?_ ?_ ?_
            hbufv hlinv hrefv hsub hsup hnotf ?_ hi.hnd hfresh ?_ hadm
          · show (0 : Int) < (getPage m f).pin_count + 1
            omega
          · exact fun g _ => rfl
          · rfl
          · exact hrepin2
          · intro g hg
            exfalso
            have hg2 : g ∈ m.free_list := hg
            rw [hfl] at hg2
            cases hg2
          · exact le_refl _

/-- `NewPage` preserves the invariant. -/
theorem inv_newp (m : BufferPoolManager) (junk : Nat) (hi : Inv m) :
    Inv (NewPageImpl m junk).2 := by
  have hfreshpid : ∀ g, ptFind m.page_table m.disk.next_page ≠ some g := by
    intro g h
    have := (hi.hpt _ g h).2.2
    omega
  cases hfl : m.free_list with
  | cons f rest =>
    rw [New_free_eq m junk f rest hfl]
    obtain ⟨hf1, hf2, hf3⟩ := hi.hfree f (by rw [hfl]; exact List.mem_cons_self f rest)
    have hnd := hi.hnd
    rw [hfl] at hnd
    refine inv_rebind m hi f m.disk.next_page _ _ _ _ _ _ rfl rfl rfl rfl hf1
      ?_ ?_ ?_ ?_ ?_ ?_ ?_ ?_ ?_ hf3 ?_ ?_ hfreshpid ?_ ?_
    · show (0 : Int) < 1
      omega
    · exact fun g _ => rfl
    · rfl
    · exact fun g _ => rfl
    · rfl
    · rfl
    · rfl
    · exact fun q g h => h
    · exact fun q g h _ => h
    · intro g hg
      have hgrest : g ∈ rest := hg
      refine ⟨by rw [hfl]; exact List.mem_cons_of_mem f hgrest, ?_⟩
      intro hc
      exact (List.nodup_cons.mp hnd).1 (hc ▸ hgrest)
    · exact (List.nodup_cons.mp hnd).2
    · show m.disk.next_page ≤ m.disk.next_page + 1
      omega
    · show m.disk.next_page < m.disk.next_page + 1
      omega
  | nil =>
    cases hv : (m.replacer.Victim).1 with
    | none =>
      rw [New_exhausted_eq m junk hfl hv]
      have hpair : m.replacer.Victim = (none, (m.replacer.Victim).2) := by
        rw [← hv]
      obtain ⟨hrr, _⟩ := Victim_none_spec _ _ hpair
      rw [hrr]
      exact hi
    | some f =>
      rw [New_evict_eq m junk f hfl hv]
      simp only []
      have hpair : m.replacer.Victim = (some f, (m.replacer.Victim).2) := by
        rw [← hv]
      obtain ⟨hinf, hset, hbufv, hlinv, hrefv⟩ := Victim_some_spec _ _ _ hpair
      obtain ⟨⟨epid, hres⟩, hpin0⟩ := (hi.htrack f).mp hinf
      obtain ⟨hfpool, hfid, hfnext⟩ := hi.hpt epid f hres
      have hflen : f < m.pages.length := by rw [hi.hpages]; exact hfpool
      have hPid : (getPage ({ m with replacer := (m.replacer.Victim).2 }
          : BufferPoolManager) f).page_id = epid := hfid
      rw [hPid]
      have hrepin2 : ∀ g, g ≠ f →
          ((m.replacer.Victim).2).inflag.getD g false
            = m.replacer.inflag.getD g false := by
        intro g hg
        rw [hset, getD_set_cases_bool, if_neg (fun hc => hg hc.1.symm)]
      have hsub : ∀ q g, ptFind (ptErase m.page_table epid) q = some g →
          ptFind m.page_table q = some g := by
        intro q g h
        rw [ptFind_erase] at h
        by_cases hq : q = epid
        · rw [if_pos hq] at h
          cases h
        · rw [if_neg hq] at h
          exact h
      have hsup : ∀ q g, ptFind m.page_table q = some g → g ≠ f →
          ptFind (ptErase m.page_table epid) q = some g := by
        intro q g h hgf
        rw [ptFind_erase]
        by_cases hq : q = epid
        · exfalso
          rw [hq] at h
          have h4 : g = f := by
            have h3 : some g = some f := h.symm.trans hres
            injection h3
          exact hgf h4
        · rw [if_neg hq]
          exact h
      have hnotf : ∀ q, ptFind (ptErase m.page_table epid) q ≠ some f := by
        intro q h
        rw [ptFind_erase] at h
        by_cases hq : q = epid
        · rw [if_pos hq] at h
          cases h
        · rw [if_neg hq] at h
          exact hq (hi.hinj q epid f h hres)
      by_cases hd : (getPage ({ m with replacer := (m.replacer.Victim).2 }
          : BufferPoolManager) f).is_dirty = true
      · rw [if_pos hd]
        have hresM1 : ptFind ({ m with replacer := (m.replacer.Victim).2 }
            : BufferPoolManager).page_table epid = some f := hres
        rw [Flush_dirty_eq _ epid f hresM1 hd]
        rw [if_pos rfl]
        simp only [newBind]
        refine inv_rebind m hi f _ _ _ _ _ _ _ rfl rfl rfl rfl hfpool ?_ ?_ ?_ ?_
          hbufv hlinv hrefv hsub hsup hnotf ?_ hi.hnd ?_ ?_ ?_
        · show (0 : Int) < 1
          omega
        · intro g hg
          show (m.pages.set f _).getD g pageDefault = getPage m g
          rw [getD_set_cases, if_neg (fun hc => hg hc.1.symm)]
          rfl
        · show (m.pages.set f _).length = m.pages.length
          simp only [List.length_set]
        · exact hrepin2
        · intro g hg
          exfalso
          have hg2 : g ∈ m.free_list := hg
          rw [hfl] at hg2
          cases hg2
        · intro g h
          have h2 : ptFind m.page_table m.disk.next_page = some g := h
          exact hfreshpid g h2
        · show m.disk.next_page ≤ m.disk.next_page + 1
          omega
        · show m.disk.next_page < m.disk.next_page + 1
          omega
      · rw [if_neg hd]
        simp only [newBind]
        refine inv_rebind m hi f _ _ _ _ _ _ _ rfl rfl rfl rfl hfpool ?_ ?_ ?_ ?_
          hbufv hlinv hrefv hsub hsup hnotf ?_ hi.hnd ?_ ?_ ?_
        · show (0 : Int) < 1
          omega
        · exact fun g _ => rfl
        · rfl
        · exact hrepin2
        · intro g hg
          exfalso
          have hg2 : g ∈ m.free_list := hg
          rw [hfl] at hg2
          cases hg2
        · intro g h
          have h2 : ptFind m.page_table m.disk.next_page = some g := h
          exact hfreshpid g h2
        · show m.disk.next_page ≤ m.disk.next_page + 1
          omega
        · show m.disk.next_page < m.disk.next_page + 1
          omega

/-- `DeletePage` (a stub) preserves the invariant. -/
theorem inv_delete (m : BufferPoolManager) (pid : Int) (hi : Inv m) :
    Inv (DeletePageImpl m pid).2 := hi

/-- `FlushAllPages` preserves the invariant. -/
theorem inv_flushAll (m : BufferPoolManager) (hi : Inv m) :
    Inv (FlushAllPagesImpl m) := by
  unfold FlushAllPagesImpl
  have main : ∀ (l : List Nat) (acc : BufferPoolManager), Inv acc →
      Inv (l.foldl (fun acc i =>
        if (getPage acc i).is_dirty then (FlushPageImpl acc (getPage acc i).page_id).2
        else acc) acc) := by
    intro l
    induction l with
    | nil => intro acc h; exact h
    | cons hd tl ih =>
      intro acc h
      simp only [List.foldl]
      by_cases hdirty : (getPage acc hd).is_dirty = true
      · rw [if_pos hdirty]
        exact ih _ (inv_flush acc _ h)
      · rw [if_neg hdirty]
        exact ih _ h
  exact main _ m hi

/-- Every admissibly-reachable state satisfies the invariant. -/
theorem inv_reachableA (N : Nat) (d : DiskManager) (m : BufferPoolManager)
    (h : ReachableA N d m) : Inv m := by
  induction h with
  | init => exact inv_init N d
  | fetch m pid junk _ hadm ih => exact inv_fetch m pid junk ih hadm
  | unpin m pid dty _ ih => exact inv_unpin m pid dty ih
  | flush m pid _ ih => exact inv_flush m pid ih
  | newp m junk _ ih => exact inv_newp m junk ih
  | deletePage m pid _ ih => exact inv_delete m pid ih
  | flushAll m _ ih => exact inv_flushAll m ih

/-- C5 (amended): in every state reachable from a fresh pool by manager
operations in which each `FetchPage` targets an identifier below the
storage collaborator's next-to-allocate counter, a frame is trackable in
the replacer iff it is resident (bound in the page table) with pin count
zero. -/
theorem C5_trackable_iff_resident_unpinned (N : Nat) (d : DiskManager)
    (m : BufferPoolManager) (h : ReachableA N d m) (f : Nat) :
    m.replacer.inflag.getD f false = true ↔
      ((∃ pid, ptFind m.page_table pid = some f) ∧ (getPage m f).pin_count = 0) :=
  (inv_reachableA N d m h).htrack f

/-- C5 witness: the invariant instance at the reachable state reached by
`NewPage()` then `UnpinPage(0, true)` on a pool of size 1. -/
theorem C5_witness :
    dirtyPool.replacer.inflag.getD 0 false = true ↔
      ((∃ pid, ptFind dirtyPool.page_table pid = some 0) ∧
        (getPage dirtyPool 0).pin_count = 0) :=
  C5_trackable_iff_resident_unpinned 1 dInit dirtyPool
    (ReachableA.unpin pool1Full 0 true
      (ReachableA.newp (initBPM 1 dInit) 0 ReachableA.init)) 0

/-! ## Claim C6: the capacity law -/

theorem pin_preserves_all_false (r : ClockReplacer) (f : Nat)
    (hall : ∀ g, r.inflag.getD g false = false) :
    ∀ g, (r.Pin f).inflag.getD g false = false := by
  intro g
  unfold ClockReplacer.Pin
  split
  · exact hall g
  · show (r.inflag.set f false).getD g false = false
    rw [getD_set_cases_bool]
    split
    · rfl
    · exact hall g

/-- An exhausted pool (empty free list, nothing trackable) rejects a fetch
of a non-resident page without changing anything. -/
theorem fetch_fail_state (m : BufferPoolManager) (pid : Int) (junk : Nat)
    (hpt : ptFind m.page_table pid = none) (hfl : m.free_list = [])
    (hall : ∀ f, m.replacer.inflag.getD f false = false) :
    FetchPageImpl m pid junk = (none, m) := by
  have hv : m.replacer.Victim = (none, m.replacer) := Victim_all_false _ hall
  rw [Fetch_exhausted_eq m pid junk hpt hfl (by rw [hv]), hv]

/-- An exhausted pool rejects `NewPage` without changing anything. -/
theorem newp_fail_state (m : BufferPoolManager) (junk : Nat)
    (hfl : m.free_list = [])
    (hall : ∀ f, m.replacer.inflag.getD f false = false) :
    NewPageImpl m junk = (none, m) := by
  have hv : m.replacer.Victim = (none, m.replacer) := Victim_all_false _ hall
  rw [New_exhausted_eq m junk hfl (by rw [hv]), hv]

/-- Running a successful no-unpin miss sequence keeps the replacer empty
and consumes exactly one free frame per operation. -/
theorem distinctMiss_run (ops : List Op) : ∀ (m : BufferPoolManager),
    DistinctMissOps m ops →
    (∀ f, m.replacer.inflag.getD f false = false) →
    (∀ f, (runOps m ops).replacer.inflag.getD f false = false) ∧
    (runOps m ops).free_list.length + ops.length = m.free_list.length := by
  induction ops with
  | nil =>
    intro m _ hall
    exact ⟨hall, by simp [runOps]⟩
  | cons op rest ih =>
    intro m hd hall
    cases op with
    | fetch pid junk =>
      obtain ⟨hmiss, hsucc, hrest⟩ := hd
      cases hfl : m.free_list with
      | nil =>
        exfalso
        exact hsucc (by rw [fetch_fail_state m pid junk hmiss hfl hall])
      | cons f restfl =>
        rw [runOps_cons]
        have hm'2 : applyOp m (Op.fetch pid junk) = (FetchPageImpl m pid junk).2 := rfl
        rw [Fetch_free_eq m pid junk f restfl hmiss hfl] at hm'2
        have hall' : ∀ g,
            (applyOp m (Op.fetch pid junk)).replacer.inflag.getD g false = false := by
          intro g
          rw [hm'2]
          exact pin_preserves_all_false m.replacer f hall g
        have hfl' : (applyOp m (Op.fetch pid junk)).free_list = restfl := by
          rw [hm'2]
        obtain ⟨h1, h2⟩ := ih (applyOp m (Op.fetch pid junk)) hrest hall'
        refine ⟨h1, ?_⟩
        rw [hfl'] at h2
        have : m.free_list.length = restfl.length + 1 := by
          rw [hfl]
          simp
        simp only [List.length_cons]
        omega
    | newp junk =>
      obtain ⟨hsucc, hrest⟩ := hd
      cases hfl : m.free_list with
      | nil =>
        exfalso
        exact hsucc (by rw [newp_fail_state m junk hfl hall])
      | cons f restfl =>
        rw [runOps_cons]
        have hm'2 : applyOp m (Op.newp junk) = (NewPageImpl m junk).2 := rfl
        rw [New_free_eq m junk f restfl hfl] at hm'2
        have hall' : ∀ g,
            (applyOp m (Op.newp junk)).replacer.inflag.getD g false = false := by
          intro g
          rw [hm'2]
          exact pin_preserves_all_false m.replacer f hall g
        have hfl' : (applyOp m (Op.newp junk)).free_list = restfl := by
          rw [hm'2]
        obtain ⟨h1, h2⟩ := ih (applyOp m (Op.newp junk)) hrest hall'
        refine ⟨h1, ?_⟩
        rw [hfl'] at h2
        have : m.free_list.length = restfl.length + 1 := by
          rw [hfl]
          simp
        simp only [List.length_cons]
        omega
    | unpin pid dty => exact hd.elim
    | flush pid => exact hd.elim
    | deletePage pid => exact hd.elim
    | flushAll => exact hd.elim

/-- C6: with pool size `N`, after `N` successful `NewPage`/`FetchPage`
calls on distinct (non-resident) pages with no unpins, the next
`FetchPage` of a further distinct page and the next `NewPage` both fail
with the Exhausted signal and bind no frame (the state is unchanged). -/
theorem C6_capacity_law (N : Nat) (d : DiskManager) (ops : List Op)
    (hops : DistinctMissOps (initBPM N d) ops) (hlen : ops.length = N) :
    ∀ pid junk, ptFind (runOps (initBPM N d) ops).page_table pid = none →
      FetchPageImpl (runOps (initBPM N d) ops) pid junk
        = (none, runOps (initBPM N d) ops) ∧
      NewPageImpl (runOps (initBPM N d) ops) junk
        = (none, runOps (initBPM N d) ops) := by
  have hall0 : ∀ f, (initBPM N d).replacer.inflag.getD f false = false := by
    intro f
    show (List.replicate N false).getD f false = false
    exact getD_replicate N f false
  obtain ⟨hall, hcount⟩ := distinctMiss_run ops (initBPM N d) hops hall0
  have hfl0 : (initBPM N d).free_list.length = N := by
    show (List.range N).length = N
    exact List.length_range N
  have hempty : (runOps (initBPM N d) ops).free_list = [] := by
    have hz : (runOps (initBPM N d) ops).free_list.length = 0 := by omega
    exact List.length_eq_zero.mp hz
  intro pid junk hmiss
  exact ⟨fetch_fail_state _ pid junk hmiss hempty hall,
    newp_fail_state _ junk hempty hall⟩

/-- C6 witness: pool of size 1; after one successful `NewPage`, both a
fetch of the distinct page 5 and another `NewPage` fail with no state
change. -/
theorem C6_witness :
    FetchPageImpl (runOps (initBPM 1 dInit) [Op.newp 0]) 5 0
      = (none, runOps (initBPM 1 dInit) [Op.newp 0]) ∧
    NewPageImpl (runOps (initBPM 1 dInit) [Op.newp 0]) 0
      = (none, runOps (initBPM 1 dInit) [Op.newp 0]) :=
  C6_capacity_law 1 dInit [Op.newp 0] ⟨by decide, trivial⟩ rfl 5 0 (by decide)

end Bustub
